import Mathlib

/-!
Verification model of the uridx indexing engine.

Shallow embedding of `src/uridx/db/engine.py` (schema bootstrap, FTS
triggers), `src/uridx/db/operations.py` (`add_item`, `delete_item`,
`get_item`) and `src/uridx/mcp/server.py` (the tool facade) over an
explicit database state.  Machine floats in embedding vectors are
abstracted to `List Int` (only their length matters to the claims);
timestamps are `Nat`.
-/

namespace Uridx

/-- An incoming chunk of an ingestion record: `{"text": ..., "key": ...,
"meta": ...}`.  `meta` is kept in already-serialized form since the code
only ever stores `json.dumps(meta)`. -/
structure ChunkData where
  text : String
  key : Option String
  meta : Option String
deriving Repr, DecidableEq

/-- A row of the `chunk` table. -/
structure ChunkRow where
  id : Nat
  item_id : Nat
  chunk_key : Option String
  chunk_index : Nat
  text : String
  meta : Option String
deriving Repr, DecidableEq

/-- A row of the `item` table. -/
structure ItemRow where
  id : Nat
  source_uri : String
  title : Option String
  source_type : Option String
  context : Option String
  expires_at : Option Nat
  created_at : Nat
  updated_at : Nat
deriving Repr, DecidableEq

/-- A row of the `tag` table. -/
structure TagRow where
  item_id : Nat
  tag : String
deriving Repr, DecidableEq

/-- A row of the `chunk_embeddings` vec0 virtual table. -/
structure EmbRow where
  chunk_id : Nat
  embedding : List Int
deriving Repr, DecidableEq

/-- A row of the contentless `chunks_fts` FTS5 virtual table: external
rowid plus the two indexed columns. -/
structure FtsRow where
  rowid : Nat
  text : String
  context : String
deriving Repr, DecidableEq

/-- A row of the `setting` table. -/
structure SettingRow where
  key : String
  value : String
deriving Repr, DecidableEq

/-- The whole persisted store: the three relational tables, the two
virtual tables, the settings, the dimension declared by the existing
`chunk_embeddings` table (`none` when the table has not been created),
whether `chunks_fts` and its triggers exist, and the id sequences. -/
structure DB where
  items : List ItemRow
  chunks : List ChunkRow
  tags : List TagRow
  chunk_embeddings : List EmbRow
  chunks_fts : List FtsRow
  settings : List SettingRow
  embDimTable : Option Nat
  ftsTable : Bool
  next_item_id : Nat
  next_chunk_id : Nat
deriving Repr, DecidableEq

/-- Python truthiness of an optional string: `None` and `""` are falsy.
The source guards keys with `if c.chunk_key` / `if c.get("key")`. -/
def truthyKey : Option String → Bool
  | none => false
  | some s => !s.isEmpty

/-- Membership of an optional key in a set of keys, `false` for `None`
(mirrors `c.chunk_key not in new_chunk_keys` under the truthy guard). -/
def optKeyMem (keys : List String) : Option String → Bool
  | some k => keys.contains k
  | none => false

/-- `new_chunk_keys = {c.get("key") for c in chunks if c.get("key")}`:
the truthy keys of the incoming chunks (membership is all that is used
of the Python set). -/
def incomingKeys (chunks : List ChunkData) : List String :=
  (chunks.filterMap (fun c => c.key)).filter (fun k => !k.isEmpty)

/-- `session.exec(select(Item).where(Item.source_uri == uri)).first()`. -/
def firstItem (db : DB) (uri : String) : Option ItemRow :=
  db.items.find? (fun i => i.source_uri == uri)

/-- The chunk rows owned by an item (`item.chunks`). -/
def chunksOf (db : DB) (itemId : Nat) : List ChunkRow :=
  db.chunks.filter (fun c => c.item_id == itemId)

/-- The tag rows owned by an item (`item.tags`). -/
def tagsOf (db : DB) (itemId : Nat) : List TagRow :=
  db.tags.filter (fun t => t.item_id == itemId)

/-- `COALESCE((SELECT context FROM item WHERE id = ?), '')` as read by
the FTS triggers. -/
def contextOf (items : List ItemRow) (itemId : Nat) : String :=
  match items.find? (fun i => i.id == itemId) with
  | some i => i.context.getD ""
  | none => ""

/-- Lookup in the `setting` table. -/
def lookupSetting (db : DB) (k : String) : Option String :=
  (db.settings.find? (fun s => s.key == k)).map (fun s => s.value)

/-- Number of `chunk_embeddings` rows for a given chunk id. -/
def embCount (db : DB) (cid : Nat) : Nat :=
  (db.chunk_embeddings.filter (fun e => e.chunk_id == cid)).length

/-- Effect of the `chunks_ai` AFTER INSERT trigger (only installed once
`chunks_fts` exists): insert the FTS row for a new chunk, sourcing
`context` from the owning item. -/
def ftsInsertRow (db : DB) (cid : Nat) (text : String) (itemId : Nat) : DB :=
  if db.ftsTable then
    { db with chunks_fts := db.chunks_fts ++ [⟨cid, text, contextOf db.items itemId⟩] }
  else db

/-- Effect of the FTS delete command issued by the `chunks_ad` /
`chunks_au` triggers for one rowid. -/
def ftsDeleteRow (db : DB) (cid : Nat) : DB :=
  if db.ftsTable then
    { db with chunks_fts := db.chunks_fts.filter (fun f => !(f.rowid == cid)) }
  else db

/-- INSERT INTO chunk: append the row with a fresh id and fire the
`chunks_ai` trigger.  Returns the assigned id. -/
def chunkInsert (db : DB) (itemId : Nat) (key : Option String) (idx : Nat)
    (text : String) (meta : Option String) : DB × Nat :=
  let cid := db.next_chunk_id
  let db1 : DB :=
    { db with chunks := db.chunks ++ [⟨cid, itemId, key, idx, text, meta⟩],
              next_chunk_id := cid + 1 }
  (ftsInsertRow db1 cid text itemId, cid)

/-- The `chunks_au` trigger firing after an UPDATE of the row `cid`:
delete then re-insert its FTS row from the updated chunk table. -/
def chunkUpdateFts (db : DB) (cid : Nat) : DB :=
  match db.chunks.find? (fun c => c.id == cid) with
  | some c => ftsInsertRow (ftsDeleteRow db cid) cid c.text c.item_id
  | none => db

/-- UPDATE on an existing chunk row (merge path: new `text`, `meta`,
`chunk_index`), firing the `chunks_au` trigger for that rowid. -/
def chunkUpdate (db : DB) (cid : Nat) (text : String) (meta : Option String)
    (idx : Nat) : DB :=
  chunkUpdateFts
    { db with chunks := db.chunks.map (fun c =>
        if c.id == cid then { c with text := text, meta := meta, chunk_index := idx } else c) }
    cid

/-- DELETE of chunk rows by id (merge path key diff), each firing the
`chunks_ad` trigger (all ids passed here belong to live rows). -/
def chunkDeleteIds (db : DB) (cids : List Nat) : DB :=
  { db with chunks := db.chunks.filter (fun c => !(cids.contains c.id)),
            chunks_fts :=
              if db.ftsTable then db.chunks_fts.filter (fun f => !(cids.contains f.rowid))
              else db.chunks_fts }

/-- ORM cascade delete of all chunk rows of an item
(`session.delete(item)`), each firing the `chunks_ad` trigger. -/
def chunkDeleteByItem (db : DB) (itemId : Nat) : DB :=
  let removed := ((db.chunks.filter (fun c => c.item_id == itemId)).map (fun c => c.id))
  { db with chunks := db.chunks.filter (fun c => !(c.item_id == itemId)),
            chunks_fts :=
              if db.ftsTable then db.chunks_fts.filter (fun f => !(removed.contains f.rowid))
              else db.chunks_fts }

/-- `DELETE FROM chunk_embeddings WHERE chunk_id IN (...)`. -/
def embDelete (db : DB) (cids : List Nat) : DB :=
  { db with chunk_embeddings := db.chunk_embeddings.filter (fun e => !(cids.contains e.chunk_id)) }

/-- `INSERT INTO chunk_embeddings (chunk_id, embedding) VALUES (?, ?)`. -/
def embInsert (db : DB) (cid : Nat) (v : List Int) : DB :=
  { db with chunk_embeddings := db.chunk_embeddings ++ [⟨cid, v⟩] }

/-- Whether the vec0 table accepts every vector of the batch: the table
exists and each vector has exactly the declared dimension. -/
def embedDimsOk (db : DB) (pairs : List (Nat × List Int)) : Bool :=
  pairs.all (fun p => db.embDimTable == some p.2.length)

/-- The insert-path embedding loop: one plain INSERT per chunk. -/
def embedInsertFold (db : DB) : List (Nat × List Int) → DB
  | [] => db
  | p :: rest => embedInsertFold (embInsert db p.1 p.2) rest

/-- The merge-path embedding loop: per chunk, DELETE the old row then
INSERT the fresh one. -/
def embedReplaceFold (db : DB) : List (Nat × List Int) → DB
  | [] => db
  | p :: rest => embedReplaceFold (embInsert (embDelete db [p.1]) p.1 p.2) rest

/-- Errors an upsert can raise after its relational commit. -/
inductive UpsertError where
  | embedDimMismatch
deriving Repr, DecidableEq

/-- Insert-path embedding phase: runs after the relational commit; a
vector whose length disagrees with the vec0 table's dimension makes the
raw insert fail and the uncommitted embedding work is rolled back. -/
def embedInsertPhase (db : DB) (pairs : List (Nat × List Int)) : DB × Option UpsertError :=
  if embedDimsOk db pairs then (embedInsertFold db pairs, none)
  else (db, some UpsertError.embedDimMismatch)

/-- Merge-path embedding phase (delete + insert per chunk), same
transactional behavior as `embedInsertPhase`. -/
def embedReplacePhase (db : DB) (pairs : List (Nat × List Int)) : DB × Option UpsertError :=
  if embedDimsOk db pairs then (embedReplaceFold db pairs, none)
  else (db, some UpsertError.embedDimMismatch)

/-- `for tag in existing.tags: session.delete(tag)`. -/
def tagDeleteByItem (db : DB) (itemId : Nat) : DB :=
  { db with tags := db.tags.filter (fun t => !(t.item_id == itemId)) }

/-- Modelled from the spec: the tag insertion loop of `add_item` feeds
the supplied list through the `tag` table, whose constraints live in
`src/uridx/db/models.py` (absent from the sources); per the spec's
"insert the supplied tag set (duplicates collapsed)" duplicates in the
input collapse to a single row. -/
def insertTagSet (db : DB) (itemId : Nat) (tags : List String) : DB :=
  { db with tags := db.tags ++ (tags.dedup).map (fun t => ⟨itemId, t⟩) }

/-- The merge-path item metadata update (`existing.title = title`, ...,
`existing.updated_at = datetime.utcnow()`). -/
def itemUpdate (db : DB) (itemId : Nat) (title source_type context : Option String)
    (expires_at : Option Nat) (now : Nat) : DB :=
  { db with items := db.items.map (fun i =>
      if i.id == itemId then
        { i with title := title, source_type := source_type, context := context,
                 expires_at := expires_at, updated_at := now }
      else i) }

/-- `key and key in existing_keys` followed by `existing_keys[key]`:
the dict binds each truthy key to the LAST pre-existing chunk carrying
it. -/
def keyMatch (snapshot : List ChunkRow) : Option String → Option ChunkRow
  | some k =>
      if k.isEmpty then none
      else (snapshot.filter (fun c => c.chunk_key == some k)).getLast?
  | none => none

/-- The insert-path chunk loop: create one chunk per incoming record
entry, `chunk_index = enumerate` position; returns `(id, text)` in loop
order for the embedding batch. -/
def insertChunksFrom (itemId : Nat) (idx : Nat) (cs : List ChunkData) (db : DB) :
    DB × List (Nat × String) :=
  match cs with
  | [] => (db, [])
  | c :: rest =>
      let p := chunkInsert db itemId c.key idx c.text c.meta
      let r := insertChunksFrom itemId (idx + 1) rest p.1
      (r.1, (p.2, c.text) :: r.2)

/-- The merge-path chunk loop: an incoming chunk whose truthy key is
bound in the pre-merge snapshot updates that chunk in place, any other
incoming chunk becomes a new row; returns `(id, text)` in loop order. -/
def mergeChunksFrom (itemId : Nat) (snapshot : List ChunkRow) (idx : Nat)
    (cs : List ChunkData) (db : DB) : DB × List (Nat × String) :=
  match cs with
  | [] => (db, [])
  | c :: rest =>
      match keyMatch snapshot c.key with
      | some cr =>
          let db1 := chunkUpdate db cr.id c.text c.meta idx
          let r := mergeChunksFrom itemId snapshot (idx + 1) rest db1
          (r.1, (cr.id, c.text) :: r.2)
      | none =>
          let p := chunkInsert db itemId c.key idx c.text c.meta
          let r := mergeChunksFrom itemId snapshot (idx + 1) rest p.1
          (r.1, (p.2, c.text) :: r.2)

/-- `delete_item(source_uri)` of `src/uridx/db/operations.py`: look up
the item; if absent return `false`; otherwise delete its embedding rows
by chunk id, then the item with its chunks and tags (the ORM cascade is
modelled from the spec, invariant I5, since `models.py` is absent from
the sources); FTS rows go via the delete trigger.  Returns `true`. -/
def delete_item (db : DB) (source_uri : String) : DB × Bool :=
  match firstItem db source_uri with
  | none => (db, false)
  | some it =>
      let cids := (chunksOf db it.id).map (fun c => c.id)
      let db1 := embDelete db cids
      let db2 := chunkDeleteByItem db1 it.id
      let db3 := tagDeleteByItem db2 it.id
      let db4 : DB := { db3 with items := db3.items.filter (fun i => !(i.id == it.id)) }
      (db4, true)

/-- The no-existing-item branch of `add_item`: create the item row,
insert all chunks, insert the tags, commit, then run the embedding
batch. -/
def insertPath (db : DB) (now : Nat) (embed : String → List Int) (source_uri : String)
    (title source_type context : Option String) (cs : List ChunkData)
    (tags : List String) (expires_at : Option Nat) : DB × Option UpsertError :=
  let itemId := db.next_item_id
  let db1 : DB :=
    { db with items := db.items ++ [⟨itemId, source_uri, title, source_type, context,
                                    expires_at, now, now⟩],
              next_item_id := itemId + 1 }
  let r := insertChunksFrom itemId 0 cs db1
  let db3 := insertTagSet r.1 itemId tags
  embedInsertPhase db3 (r.2.map (fun q => (q.1, embed q.2)))

/-- The existing-item, `replace=False` branch of `add_item`: update the
item metadata, snapshot `existing.chunks`, delete the chunks whose
truthy key is absent from the incoming key set (embeddings first, rows
after), run the merge loop, replace the tags, commit, then re-embed
every incoming chunk (delete + insert per chunk id). -/
def mergePath (db : DB) (now : Nat) (embed : String → List Int) (it : ItemRow)
    (title source_type context : Option String) (cs : List ChunkData)
    (tags : List String) (expires_at : Option Nat) : DB × Option UpsertError :=
  let db1 := itemUpdate db it.id title source_type context expires_at now
  let snapshot := chunksOf db1 it.id
  let newKeys := incomingKeys cs
  let toDel := snapshot.filter (fun c => truthyKey c.chunk_key && !(optKeyMem newKeys c.chunk_key))
  let db2 := embDelete db1 (toDel.map (fun c => c.id))
  let db3 := chunkDeleteIds db2 (toDel.map (fun c => c.id))
  let r := mergeChunksFrom it.id snapshot 0 cs db3
  let db5 := tagDeleteByItem r.1 it.id
  let db6 := insertTagSet db5 it.id tags
  embedReplacePhase db6 (r.2.map (fun q => (q.1, embed q.2)))

/-- `add_item` of `src/uridx/db/operations.py`.  `chunks = chunks or []`
and `tags = tags or []` are the identity on this representation.  An
existing item with `replace=True` is deleted first and the insert path
taken; an existing item with `replace=False` takes the merge path. -/
def add_item (db : DB) (now : Nat) (embed : String → List Int) (source_uri : String)
    (title source_type context : Option String) (cs : List ChunkData)
    (tags : List String) (expires_at : Option Nat) (replace : Bool) :
    DB × Option UpsertError :=
  match firstItem db source_uri, replace with
  | some it, false => mergePath db now embed it title source_type context cs tags expires_at
  | some _, true =>
      let db1 := (delete_item db source_uri).1
      insertPath db1 now embed source_uri title source_type context cs tags expires_at
  | none, _ => insertPath db now embed source_uri title source_type context cs tags expires_at

/-- The loaded view returned by `get_item`: the item row with its chunks
and tags. -/
structure ItemView where
  item : ItemRow
  chunks : List ChunkRow
  tags : List String
deriving Repr, DecidableEq

/-- `get_item(source_uri)`: the item with its chunks and tags, `none`
when absent (chunk ordering, configured in the absent `models.py`, is
taken as table order; no claim inspects it). -/
def get_item (db : DB) (source_uri : String) : Option ItemView :=
  (firstItem db source_uri).map (fun it =>
    ⟨it, chunksOf db it.id, (tagsOf db it.id).map (fun t => t.tag)⟩)

/-- Fatal bootstrap errors. -/
inductive ConfigError where
  | providerUnreachable
  | invalidSetting
deriving Repr, DecidableEq

/-- Decimal digit test on the character's code point. -/
def isDigitNat (c : Char) : Bool := 48 ≤ c.toNat && c.toNat ≤ 57

/-- The Python `int(...)` applied to the persisted setting value:
decimal parse, failure on anything else. -/
def parseNat (s : String) : Option Nat :=
  if s.data.isEmpty then none
  else if s.data.all isDigitNat then
    some (s.data.foldl (fun n c => n * 10 + (c.toNat - 48)) 0)
  else none

/-- `init_db` of `src/uridx/db/engine.py`: create the relational tables
(no-op on this state), read `Setting["embed_dimension"]` — when present
it is used as-is, the embedding provider is NOT consulted; when absent
the provider's dimension (`none` = unreachable service, which raises)
is persisted.  Then create the vec0 table only if missing (an existing
table keeps its dimension unexamined) and the FTS table with its
triggers only if missing. -/
def init_db (db : DB) (providerDim : Option Nat) (model : String) :
    Except ConfigError DB :=
  let ensure : DB → Nat → DB := fun d dim =>
    let d1 : DB := match d.embDimTable with
      | some _ => d
      | none => { d with embDimTable := some dim }
    if d1.ftsTable then d1 else { d1 with ftsTable := true }
  match lookupSetting db "embed_dimension" with
  | some v =>
      match parseNat v with
      | some dim => Except.ok (ensure db dim)
      | none => Except.error ConfigError.invalidSetting
  | none =>
      match providerDim with
      | some dim =>
          let db1 : DB :=
            { db with settings := db.settings ++
                [⟨"embed_model", model⟩, ⟨"embed_dimension", toString dim⟩] }
          Except.ok (ensure db1 dim)
      | none => Except.error ConfigError.providerUnreachable

/-- The dict returned by the `add` tool. -/
structure AddResponse where
  status : String
  source_uri : String
  title : String
deriving Repr, DecidableEq

/-- A result row produced by `hybrid_search` (scores abstracted to
`Int`; `search/hybrid.py` is absent from the sources and only the
facade's pass-through is modelled). -/
structure SearchRow where
  source_uri : String
  title : Option String
  source_type : Option String
  chunk_text : String
  score : Int
  tags : List String
deriving Repr, DecidableEq

/-- The dict the `search` tool builds from one result row. -/
structure SearchOut where
  source_uri : String
  title : Option String
  source_type : Option String
  snippet : String
  score : Int
  tags : List String
deriving Repr, DecidableEq

namespace Mcp

/-- The `add` tool of `src/uridx/mcp/server.py`: a single keyless chunk
ingestion with `replace` unset, then the success dict.  No validation
is performed on any argument. -/
def add (db : DB) (now : Nat) (embed : String → List Int) (source_uri title text : String)
    (source_type : String) (tags : Option (List String)) (context : Option String) :
    DB × Option UpsertError × AddResponse :=
  let r := add_item db now embed source_uri (some title) (some source_type) context
      [⟨text, none, none⟩] (tags.getD []) none false
  (r.1, r.2, ⟨"added", source_uri, title⟩)

/-- The `search` tool of `src/uridx/mcp/server.py`: forwards every
argument, the limit included, to `hybrid_search` (abstracted as a
function argument since `search/hybrid.py` is absent from the sources)
and re-shapes the rows.  No validation is performed. -/
def search (hybrid : String → Int → Option String → Option (List String) → Bool → List SearchRow)
    (query : String) (limit : Int) (source_type : Option String)
    (tags : Option (List String)) (semantic : Bool) : List SearchOut :=
  (hybrid query limit source_type tags semantic).map (fun r =>
    ⟨r.source_uri, r.title, r.source_type, r.chunk_text, r.score, r.tags⟩)

/-- The `delete` tool: `delete_item` then a status dict. -/
def delete (db : DB) (source_uri : String) : DB × String :=
  let r := delete_item db source_uri
  (r.1, if r.2 then "deleted" else "not_found")

end Mcp

/-- Structural well-formedness of a store state: id sequences dominate
the stored ids, chunk and item ids are duplicate-free, `source_uri` is
unique (invariant I1), and embedding rows stay below the chunk id
sequence. -/
structure DBWf (db : DB) : Prop where
  itemIdLt : ∀ i ∈ db.items, i.id < db.next_item_id
  itemIdNodup : (db.items.map (fun i => i.id)).Nodup
  uriNodup : (db.items.map (fun i => i.source_uri)).Nodup
  chunkIdLt : ∀ c ∈ db.chunks, c.id < db.next_chunk_id
  chunkIdNodup : (db.chunks.map (fun c => c.id)).Nodup
  chunkItemLt : ∀ c ∈ db.chunks, c.item_id < db.next_item_id
  tagItemLt : ∀ t ∈ db.tags, t.item_id < db.next_item_id
  embChunkLt : ∀ e ∈ db.chunk_embeddings, e.chunk_id < db.next_chunk_id

/-! ### Effect lemmas for the storage primitives -/

/-- The chunk rows the insert-path loop materializes: consecutive ids
from `sid`, positions from `idx`. -/
def mkRows (itemId sid idx : Nat) : List ChunkData → List ChunkRow
  | [] => []
  | c :: rest => ⟨sid, itemId, c.key, idx, c.text, c.meta⟩ :: mkRows itemId (sid + 1) (idx + 1) rest

/-- The FTS rows the insert triggers produce for a batch of chunk rows
under a fixed owning-item context. -/
def mkFts (b : Bool) (ctx : String) (rows : List ChunkRow) : List FtsRow :=
  if b then rows.map (fun r => ⟨r.id, r.text, ctx⟩) else []

theorem mkRows_map_id (itemId : Nat) :
    ∀ (cs : List ChunkData) (sid idx : Nat),
      (mkRows itemId sid idx cs).map (fun r => r.id) = List.range' sid cs.length := by
  intro cs
  induction cs with
  | nil => intro sid idx; simp [mkRows]
  | cons c rest ih =>
      intro sid idx
      simp [mkRows, List.range'_succ, ih]

theorem mkRows_length (itemId : Nat) :
    ∀ (cs : List ChunkData) (sid idx : Nat), (mkRows itemId sid idx cs).length = cs.length := by
  intro cs
  induction cs with
  | nil => intro sid idx; simp [mkRows]
  | cons c rest ih => intro sid idx; simp [mkRows, ih]

theorem mkRows_item_id (itemId : Nat) :
    ∀ (cs : List ChunkData) (sid idx : Nat) (r : ChunkRow),
      r ∈ mkRows itemId sid idx cs → r.item_id = itemId := by
  intro cs
  induction cs with
  | nil => intro sid idx r hr; simp [mkRows] at hr
  | cons c rest ih =>
      intro sid idx r hr
      simp only [mkRows, List.mem_cons] at hr
      rcases hr with rfl | hr
      · rfl
      · exact ih (sid + 1) (idx + 1) r hr

theorem mkRows_map_text (itemId : Nat) :
    ∀ (cs : List ChunkData) (sid idx : Nat),
      (mkRows itemId sid idx cs).map (fun r => r.text) = cs.map (fun c => c.text) := by
  intro cs
  induction cs with
  | nil => intro sid idx; simp [mkRows]
  | cons c rest ih => intro sid idx; simp [mkRows, ih]

theorem mkRows_map_key (itemId : Nat) :
    ∀ (cs : List ChunkData) (sid idx : Nat),
      (mkRows itemId sid idx cs).map (fun r => r.chunk_key) = cs.map (fun c => c.key) := by
  intro cs
  induction cs with
  | nil => intro sid idx; simp [mkRows]
  | cons c rest ih => intro sid idx; simp [mkRows, ih]

theorem mkRows_id_ge (itemId : Nat) (cs : List ChunkData) (sid idx : Nat)
    (r : ChunkRow) (hr : r ∈ mkRows itemId sid idx cs) : sid ≤ r.id := by
  have h1 : r.id ∈ (mkRows itemId sid idx cs).map (fun r => r.id) :=
    List.mem_map_of_mem _ hr
  rw [mkRows_map_id] at h1
  exact (List.mem_range'_1.mp h1).1

theorem mkRows_id_nodup (itemId : Nat) (cs : List ChunkData) (sid idx : Nat) :
    ((mkRows itemId sid idx cs).map (fun r => r.id)).Nodup := by
  rw [mkRows_map_id]
  exact List.nodup_range' sid cs.length

@[simp] theorem ftsInsertRow_items (db : DB) (cid : Nat) (t : String) (itemId : Nat) :
    (ftsInsertRow db cid t itemId).items = db.items := by
  unfold ftsInsertRow; split <;> rfl

@[simp] theorem ftsInsertRow_chunks (db : DB) (cid : Nat) (t : String) (itemId : Nat) :
    (ftsInsertRow db cid t itemId).chunks = db.chunks := by
  unfold ftsInsertRow; split <;> rfl

@[simp] theorem ftsInsertRow_tags (db : DB) (cid : Nat) (t : String) (itemId : Nat) :
    (ftsInsertRow db cid t itemId).tags = db.tags := by
  unfold ftsInsertRow; split <;> rfl

@[simp] theorem ftsInsertRow_emb (db : DB) (cid : Nat) (t : String) (itemId : Nat) :
    (ftsInsertRow db cid t itemId).chunk_embeddings = db.chunk_embeddings := by
  unfold ftsInsertRow; split <;> rfl

@[simp] theorem ftsInsertRow_settings (db : DB) (cid : Nat) (t : String) (itemId : Nat) :
    (ftsInsertRow db cid t itemId).settings = db.settings := by
  unfold ftsInsertRow; split <;> rfl

@[simp] theorem ftsInsertRow_embDimTable (db : DB) (cid : Nat) (t : String) (itemId : Nat) :
    (ftsInsertRow db cid t itemId).embDimTable = db.embDimTable := by
  unfold ftsInsertRow; split <;> rfl

@[simp] theorem ftsInsertRow_ftsTable (db : DB) (cid : Nat) (t : String) (itemId : Nat) :
    (ftsInsertRow db cid t itemId).ftsTable = db.ftsTable := by
  unfold ftsInsertRow; split <;> rfl

@[simp] theorem ftsInsertRow_next_item_id (db : DB) (cid : Nat) (t : String) (itemId : Nat) :
    (ftsInsertRow db cid t itemId).next_item_id = db.next_item_id := by
  unfold ftsInsertRow; split <;> rfl

@[simp] theorem ftsInsertRow_next_chunk_id (db : DB) (cid : Nat) (t : String) (itemId : Nat) :
    (ftsInsertRow db cid t itemId).next_chunk_id = db.next_chunk_id := by
  unfold ftsInsertRow; split <;> rfl

@[simp] theorem ftsDeleteRow_items (db : DB) (cid : Nat) :
    (ftsDeleteRow db cid).items = db.items := by
  unfold ftsDeleteRow; split <;> rfl

@[simp] theorem ftsDeleteRow_chunks (db : DB) (cid : Nat) :
    (ftsDeleteRow db cid).chunks = db.chunks := by
  unfold ftsDeleteRow; split <;> rfl

@[simp] theorem ftsDeleteRow_tags (db : DB) (cid : Nat) :
    (ftsDeleteRow db cid).tags = db.tags := by
  unfold ftsDeleteRow; split <;> rfl

@[simp] theorem ftsDeleteRow_emb (db : DB) (cid : Nat) :
    (ftsDeleteRow db cid).chunk_embeddings = db.chunk_embeddings := by
  unfold ftsDeleteRow; split <;> rfl

@[simp] theorem ftsDeleteRow_settings (db : DB) (cid : Nat) :
    (ftsDeleteRow db cid).settings = db.settings := by
  unfold ftsDeleteRow; split <;> rfl

@[simp] theorem ftsDeleteRow_embDimTable (db : DB) (cid : Nat) :
    (ftsDeleteRow db cid).embDimTable = db.embDimTable := by
  unfold ftsDeleteRow; split <;> rfl

@[simp] theorem ftsDeleteRow_ftsTable (db : DB) (cid : Nat) :
    (ftsDeleteRow db cid).ftsTable = db.ftsTable := by
  unfold ftsDeleteRow; split <;> rfl

@[simp] theorem ftsDeleteRow_next_item_id (db : DB) (cid : Nat) :
    (ftsDeleteRow db cid).next_item_id = db.next_item_id := by
  unfold ftsDeleteRow; split <;> rfl

@[simp] theorem ftsDeleteRow_next_chunk_id (db : DB) (cid : Nat) :
    (ftsDeleteRow db cid).next_chunk_id = db.next_chunk_id := by
  unfold ftsDeleteRow; split <;> rfl

/-- Full characterization of the insert-path chunk loop. -/
theorem insertChunksFrom_eq (itemId : Nat) :
    ∀ (cs : List ChunkData) (idx : Nat) (db : DB),
      insertChunksFrom itemId idx cs db =
        ({ db with
            chunks := db.chunks ++ mkRows itemId db.next_chunk_id idx cs,
            chunks_fts := db.chunks_fts ++
              mkFts db.ftsTable (contextOf db.items itemId) (mkRows itemId db.next_chunk_id idx cs),
            next_chunk_id := db.next_chunk_id + cs.length },
         (mkRows itemId db.next_chunk_id idx cs).map (fun r => (r.id, r.text))) := by
  intro cs
  induction cs with
  | nil => intro idx db; simp [insertChunksFrom, mkRows, mkFts]
  | cons c rest ih =>
      intro idx db
      simp only [insertChunksFrom, chunkInsert, mkRows]
      rw [ih]
      unfold ftsInsertRow
      cases hft : db.ftsTable <;>
        simp_all [mkFts, List.append_assoc, Nat.add_assoc, Nat.add_comm, Nat.add_left_comm]

/-- The insert-path embedding loop appends one row per pair, in order. -/
theorem embedInsertFold_eq :
    ∀ (pairs : List (Nat × List Int)) (db : DB),
      embedInsertFold db pairs =
        { db with chunk_embeddings := db.chunk_embeddings ++ pairs.map (fun p => ⟨p.1, p.2⟩) } := by
  intro pairs
  induction pairs with
  | nil => intro db; simp [embedInsertFold]
  | cons p rest ih =>
      intro db
      simp [embedInsertFold, embInsert, ih, List.append_assoc]

@[simp] theorem embedReplaceFold_items (pairs : List (Nat × List Int)) :
    ∀ db : DB, (embedReplaceFold db pairs).items = db.items := by
  induction pairs with
  | nil => intro db; rfl
  | cons p rest ih => intro db; simp [embedReplaceFold, embInsert, embDelete, ih]

@[simp] theorem embedReplaceFold_chunks (pairs : List (Nat × List Int)) :
    ∀ db : DB, (embedReplaceFold db pairs).chunks = db.chunks := by
  induction pairs with
  | nil => intro db; rfl
  | cons p rest ih => intro db; simp [embedReplaceFold, embInsert, embDelete, ih]

@[simp] theorem embedReplaceFold_tags (pairs : List (Nat × List Int)) :
    ∀ db : DB, (embedReplaceFold db pairs).tags = db.tags := by
  induction pairs with
  | nil => intro db; rfl
  | cons p rest ih => intro db; simp [embedReplaceFold, embInsert, embDelete, ih]

@[simp] theorem embedReplaceFold_fts (pairs : List (Nat × List Int)) :
    ∀ db : DB, (embedReplaceFold db pairs).chunks_fts = db.chunks_fts := by
  induction pairs with
  | nil => intro db; rfl
  | cons p rest ih => intro db; simp [embedReplaceFold, embInsert, embDelete, ih]

@[simp] theorem embedReplaceFold_settings (pairs : List (Nat × List Int)) :
    ∀ db : DB, (embedReplaceFold db pairs).settings = db.settings := by
  induction pairs with
  | nil => intro db; rfl
  | cons p rest ih => intro db; simp [embedReplaceFold, embInsert, embDelete, ih]

@[simp] theorem embedReplaceFold_items_next (pairs : List (Nat × List Int)) :
    ∀ db : DB, (embedReplaceFold db pairs).next_item_id = db.next_item_id := by
  induction pairs with
  | nil => intro db; rfl
  | cons p rest ih => intro db; simp [embedReplaceFold, embInsert, embDelete, ih]

@[simp] theorem embedReplaceFold_chunks_next (pairs : List (Nat × List Int)) :
    ∀ db : DB, (embedReplaceFold db pairs).next_chunk_id = db.next_chunk_id := by
  induction pairs with
  | nil => intro db; rfl
  | cons p rest ih => intro db; simp [embedReplaceFold, embInsert, embDelete, ih]

theorem embCount_embInsert (db : DB) (i x : Nat) (v : List Int) :
    embCount (embInsert db i v) x = embCount db x + (if i == x then 1 else 0) := by
  unfold embCount embInsert
  by_cases h : i = x <;> simp [h, List.filter_append]

theorem embCount_embDelete_single (db : DB) (i x : Nat) :
    embCount (embDelete db [i]) x = if i == x then 0 else embCount db x := by
  unfold embCount embDelete
  by_cases h : i = x
  · subst h
    simp [List.filter_filter]
  · simp only [beq_iff_eq, h, if_false]
    congr 1
    rw [List.filter_filter]
    apply List.filter_congr
    intro e he
    by_cases hx : e.chunk_id = x <;> simp [hx, h]
    intro hex
    exact h hex.symm

/-- After the merge-path embedding loop, every chunk id of the batch has
exactly one embedding row and every other id keeps its rows. -/
theorem embedReplaceFold_count :
    ∀ (pairs : List (Nat × List Int)) (db : DB) (x : Nat),
      embCount (embedReplaceFold db pairs) x =
        if (pairs.map (fun p => p.1)).contains x then 1 else embCount db x := by
  intro pairs
  induction pairs with
  | nil => intro db x; simp [embedReplaceFold]
  | cons p rest ih =>
      intro db x
      simp only [embedReplaceFold]
      rw [ih]
      by_cases hrest : x ∈ rest.map (fun p => p.1)
      · simp [hrest]
      · by_cases hx : p.1 = x
        · simp [hrest, hx, embCount_embInsert, embCount_embDelete_single]
        · simp [hrest, hx, embCount_embInsert, embCount_embDelete_single,
            show ¬x = p.1 from fun h => hx h.symm]

/-- Identity of a chunk row: its id and owner, untouched by updates. -/
def chunkSig (c : ChunkRow) : Nat × Nat := (c.id, c.item_id)

@[simp] theorem chunkUpdateFts_items (db : DB) (cid : Nat) :
    (chunkUpdateFts db cid).items = db.items := by
  unfold chunkUpdateFts; split <;> simp

@[simp] theorem chunkUpdateFts_chunks (db : DB) (cid : Nat) :
    (chunkUpdateFts db cid).chunks = db.chunks := by
  unfold chunkUpdateFts; split <;> simp

@[simp] theorem chunkUpdateFts_tags (db : DB) (cid : Nat) :
    (chunkUpdateFts db cid).tags = db.tags := by
  unfold chunkUpdateFts; split <;> simp

@[simp] theorem chunkUpdateFts_emb (db : DB) (cid : Nat) :
    (chunkUpdateFts db cid).chunk_embeddings = db.chunk_embeddings := by
  unfold chunkUpdateFts; split <;> simp

@[simp] theorem chunkUpdateFts_settings (db : DB) (cid : Nat) :
    (chunkUpdateFts db cid).settings = db.settings := by
  unfold chunkUpdateFts; split <;> simp

@[simp] theorem chunkUpdateFts_embDimTable (db : DB) (cid : Nat) :
    (chunkUpdateFts db cid).embDimTable = db.embDimTable := by
  unfold chunkUpdateFts; split <;> simp

@[simp] theorem chunkUpdateFts_ftsTable (db : DB) (cid : Nat) :
    (chunkUpdateFts db cid).ftsTable = db.ftsTable := by
  unfold chunkUpdateFts; split <;> simp

@[simp] theorem chunkUpdateFts_next_item_id (db : DB) (cid : Nat) :
    (chunkUpdateFts db cid).next_item_id = db.next_item_id := by
  unfold chunkUpdateFts; split <;> simp

@[simp] theorem chunkUpdateFts_next_chunk_id (db : DB) (cid : Nat) :
    (chunkUpdateFts db cid).next_chunk_id = db.next_chunk_id := by
  unfold chunkUpdateFts; split <;> simp

@[simp] theorem chunkUpdate_items (db : DB) (cid : Nat) (t : String) (m : Option String)
    (i : Nat) : (chunkUpdate db cid t m i).items = db.items := by
  simp [chunkUpdate]

@[simp] theorem chunkUpdate_tags (db : DB) (cid : Nat) (t : String) (m : Option String)
    (i : Nat) : (chunkUpdate db cid t m i).tags = db.tags := by
  simp [chunkUpdate]

@[simp] theorem chunkUpdate_emb (db : DB) (cid : Nat) (t : String) (m : Option String)
    (i : Nat) : (chunkUpdate db cid t m i).chunk_embeddings = db.chunk_embeddings := by
  simp [chunkUpdate]

@[simp] theorem chunkUpdate_settings (db : DB) (cid : Nat) (t : String) (m : Option String)
    (i : Nat) : (chunkUpdate db cid t m i).settings = db.settings := by
  simp [chunkUpdate]

@[simp] theorem chunkUpdate_embDimTable (db : DB) (cid : Nat) (t : String) (m : Option String)
    (i : Nat) : (chunkUpdate db cid t m i).embDimTable = db.embDimTable := by
  simp [chunkUpdate]

@[simp] theorem chunkUpdate_ftsTable (db : DB) (cid : Nat) (t : String) (m : Option String)
    (i : Nat) : (chunkUpdate db cid t m i).ftsTable = db.ftsTable := by
  simp [chunkUpdate]

@[simp] theorem chunkUpdate_next_item_id (db : DB) (cid : Nat) (t : String) (m : Option String)
    (i : Nat) : (chunkUpdate db cid t m i).next_item_id = db.next_item_id := by
  simp [chunkUpdate]

@[simp] theorem chunkUpdate_next_chunk_id (db : DB) (cid : Nat) (t : String) (m : Option String)
    (i : Nat) : (chunkUpdate db cid t m i).next_chunk_id = db.next_chunk_id := by
  simp [chunkUpdate]

@[simp] theorem chunkUpdate_sig (db : DB) (cid : Nat) (t : String) (m : Option String)
    (i : Nat) : (chunkUpdate db cid t m i).chunks.map chunkSig = db.chunks.map chunkSig := by
  simp only [chunkUpdate, chunkUpdateFts_chunks]
  rw [List.map_map]
  apply List.map_congr_left
  intro c hc
  by_cases h : c.id = cid <;> simp [chunkSig, h]

@[simp] theorem mergeChunksFrom_items (itemId : Nat) (snapshot : List ChunkRow) :
    ∀ (cs : List ChunkData) (idx : Nat) (db : DB),
      (mergeChunksFrom itemId snapshot idx cs db).1.items = db.items := by
  intro cs
  induction cs with
  | nil => intro idx db; rfl
  | cons c rest ih =>
      intro idx db
      simp only [mergeChunksFrom]
      cases hk : keyMatch snapshot c.key <;> simp [chunkInsert, ih]

@[simp] theorem mergeChunksFrom_tags (itemId : Nat) (snapshot : List ChunkRow) :
    ∀ (cs : List ChunkData) (idx : Nat) (db : DB),
      (mergeChunksFrom itemId snapshot idx cs db).1.tags = db.tags := by
  intro cs
  induction cs with
  | nil => intro idx db; rfl
  | cons c rest ih =>
      intro idx db
      simp only [mergeChunksFrom]
      cases hk : keyMatch snapshot c.key <;> simp [chunkInsert, ih]

@[simp] theorem mergeChunksFrom_emb (itemId : Nat) (snapshot : List ChunkRow) :
    ∀ (cs : List ChunkData) (idx : Nat) (db : DB),
      (mergeChunksFrom itemId snapshot idx cs db).1.chunk_embeddings = db.chunk_embeddings := by
  intro cs
  induction cs with
  | nil => intro idx db; rfl
  | cons c rest ih =>
      intro idx db
      simp only [mergeChunksFrom]
      cases hk : keyMatch snapshot c.key <;> simp [chunkInsert, ih]

@[simp] theorem mergeChunksFrom_settings (itemId : Nat) (snapshot : List ChunkRow) :
    ∀ (cs : List ChunkData) (idx : Nat) (db : DB),
      (mergeChunksFrom itemId snapshot idx cs db).1.settings = db.settings := by
  intro cs
  induction cs with
  | nil => intro idx db; rfl
  | cons c rest ih =>
      intro idx db
      simp only [mergeChunksFrom]
      cases hk : keyMatch snapshot c.key <;> simp [chunkInsert, ih]

@[simp] theorem mergeChunksFrom_embDimTable (itemId : Nat) (snapshot : List ChunkRow) :
    ∀ (cs : List ChunkData) (idx : Nat) (db : DB),
      (mergeChunksFrom itemId snapshot idx cs db).1.embDimTable = db.embDimTable := by
  intro cs
  induction cs with
  | nil => intro idx db; rfl
  | cons c rest ih =>
      intro idx db
      simp only [mergeChunksFrom]
      cases hk : keyMatch snapshot c.key <;> simp [chunkInsert, ih]

@[simp] theorem mergeChunksFrom_ftsTable (itemId : Nat) (snapshot : List ChunkRow) :
    ∀ (cs : List ChunkData) (idx : Nat) (db : DB),
      (mergeChunksFrom itemId snapshot idx cs db).1.ftsTable = db.ftsTable := by
  intro cs
  induction cs with
  | nil => intro idx db; rfl
  | cons c rest ih =>
      intro idx db
      simp only [mergeChunksFrom]
      cases hk : keyMatch snapshot c.key <;> simp [chunkInsert, ih]

@[simp] theorem mergeChunksFrom_next_item_id (itemId : Nat) (snapshot : List ChunkRow) :
    ∀ (cs : List ChunkData) (idx : Nat) (db : DB),
      (mergeChunksFrom itemId snapshot idx cs db).1.next_item_id = db.next_item_id := by
  intro cs
  induction cs with
  | nil => intro idx db; rfl
  | cons c rest ih =>
      intro idx db
      simp only [mergeChunksFrom]
      cases hk : keyMatch snapshot c.key <;> simp [chunkInsert, ih]

theorem mergeChunksFrom_next_chunk_id_le (itemId : Nat) (snapshot : List ChunkRow) :
    ∀ (cs : List ChunkData) (idx : Nat) (db : DB),
      db.next_chunk_id ≤ (mergeChunksFrom itemId snapshot idx cs db).1.next_chunk_id := by
  intro cs
  induction cs with
  | nil => intro idx db; exact Nat.le_refl _
  | cons c rest ih =>
      intro idx db
      simp only [mergeChunksFrom]
      cases hk : keyMatch snapshot c.key with
      | none =>
          have h := ih (idx + 1) (chunkInsert db itemId c.key idx c.text c.meta).1
          have h2 : (chunkInsert db itemId c.key idx c.text c.meta).1.next_chunk_id =
              db.next_chunk_id + 1 := by
            simp [chunkInsert]
          exact le_trans (by omega) h
      | some cr =>
          have h := ih (idx + 1) (chunkUpdate db cr.id c.text c.meta idx)
          have h2 := chunkUpdate_next_chunk_id db cr.id c.text c.meta idx
          exact le_trans (le_of_eq h2.symm) h

/-- When every incoming chunk has a key bound in the snapshot, the merge
loop is pure update: no chunk row is created or destroyed. -/
theorem mergeChunksFrom_allMatch_sig (itemId : Nat) (snapshot : List ChunkRow) :
    ∀ (cs : List ChunkData) (idx : Nat) (db : DB),
      (∀ c ∈ cs, (keyMatch snapshot c.key).isSome) →
      (mergeChunksFrom itemId snapshot idx cs db).1.chunks.map chunkSig =
        db.chunks.map chunkSig := by
  intro cs
  induction cs with
  | nil => intro idx db hall; rfl
  | cons c rest ih =>
      intro idx db hall
      have hc : (keyMatch snapshot c.key).isSome := hall c (List.mem_cons_self c rest)
      cases hk : keyMatch snapshot c.key with
      | none => rw [hk] at hc; simp at hc
      | some cr =>
          have ihr := ih (idx + 1) (chunkUpdate db cr.id c.text c.meta idx)
            (fun x hx => hall x (List.mem_cons_of_mem c hx))
          have goal_eq :
              (mergeChunksFrom itemId snapshot idx (c :: rest) db).1 =
              (mergeChunksFrom itemId snapshot (idx + 1) rest
                (chunkUpdate db cr.id c.text c.meta idx)).1 := by
            simp only [mergeChunksFrom, hk]
          rw [goal_eq, ihr, chunkUpdate_sig]

/-- General effect of the merge loop on row identity: the pre-existing
rows keep their signature, new rows get ids at or above the sequence. -/
theorem mergeChunksFrom_sig_ext (itemId : Nat) (snapshot : List ChunkRow) :
    ∀ (cs : List ChunkData) (idx : Nat) (db : DB),
      ∃ ext : List (Nat × Nat),
        (mergeChunksFrom itemId snapshot idx cs db).1.chunks.map chunkSig =
          db.chunks.map chunkSig ++ ext ∧
        ∀ p ∈ ext, db.next_chunk_id ≤ p.1 := by
  intro cs
  induction cs with
  | nil => intro idx db; exact ⟨[], by simp [mergeChunksFrom], by simp⟩
  | cons c rest ih =>
      intro idx db
      cases hk : keyMatch snapshot c.key with
      | some cr =>
          obtain ⟨ext, hext, hge⟩ := ih (idx + 1) (chunkUpdate db cr.id c.text c.meta idx)
          refine ⟨ext, ?_, ?_⟩
          · have goal_eq :
                (mergeChunksFrom itemId snapshot idx (c :: rest) db).1 =
                (mergeChunksFrom itemId snapshot (idx + 1) rest
                  (chunkUpdate db cr.id c.text c.meta idx)).1 := by
              simp only [mergeChunksFrom, hk]
            rw [goal_eq, hext, chunkUpdate_sig]
          · intro p hp
            have := hge p hp
            simpa using this
      | none =>
          obtain ⟨ext, hext, hge⟩ := ih (idx + 1) (chunkInsert db itemId c.key idx c.text c.meta).1
          refine ⟨(db.next_chunk_id, itemId) :: ext, ?_, ?_⟩
          · have goal_eq :
                (mergeChunksFrom itemId snapshot idx (c :: rest) db).1 =
                (mergeChunksFrom itemId snapshot (idx + 1) rest
                  (chunkInsert db itemId c.key idx c.text c.meta).1).1 := by
              simp only [mergeChunksFrom, hk]
            rw [goal_eq, hext]
            simp [chunkInsert, chunkSig]
          · intro p hp
            rcases List.mem_cons.mp hp with rfl | hp
            · exact Nat.le_refl _
            · have := hge p hp
              simp [chunkInsert] at this
              omega

theorem firstItem_mem (db : DB) (uri : String) (it : ItemRow)
    (h : firstItem db uri = some it) : it ∈ db.items ∧ it.source_uri = uri := by
  unfold firstItem at h
  refine ⟨List.mem_of_find?_eq_some h, ?_⟩
  have := List.find?_some h
  simpa using this

theorem firstItem_append_of_none (db : DB) (uri : String)
    (h : firstItem db uri = none) (it : ItemRow) :
    (db.items ++ [it]).find? (fun i => i.source_uri == uri) =
      if it.source_uri == uri then some it else none := by
  unfold firstItem at h
  rw [List.find?_append, h]
  cases hit : it.source_uri == uri <;> simp [List.find?, hit]

theorem find?_id_of_nodup (l : List ItemRow) (hnod : (l.map (fun i => i.id)).Nodup)
    (it : ItemRow) (hit : it ∈ l) : l.find? (fun i => i.id == it.id) = some it := by
  induction l with
  | nil => simp at hit
  | cons a rest ih =>
      rcases List.mem_cons.mp hit with rfl | hit
      · simp [List.find?]
      · by_cases ha : a.id = it.id
        · exfalso
          have heq : a = it := List.inj_on_of_nodup_map hnod (List.mem_cons_self a rest)
            (List.mem_cons_of_mem a hit) ha
          rw [List.map_cons, List.nodup_cons] at hnod
          exact hnod.1 (by rw [heq]; exact List.mem_map_of_mem _ hit)
        · have hrest : (rest.map (fun i => i.id)).Nodup :=
            (List.nodup_cons.mp (by simpa using hnod)).2
          simp only [List.find?]
          have hfalse : (a.id == it.id) = false := by simp [ha]
          rw [hfalse]
          exact ih hrest hit

theorem find?_map_ite_id (l : List ItemRow) (itemId : Nat) (g : ItemRow → ItemRow)
    (hg : ∀ i, (g i).id = i.id) :
    (l.map (fun i => if i.id == itemId then g i else i)).find? (fun i => i.id == itemId) =
      (l.find? (fun i => i.id == itemId)).map g := by
  induction l with
  | nil => rfl
  | cons a rest ih =>
      cases hb : (a.id == itemId) with
      | true =>
          have ha : a.id = itemId := by simpa using hb
          simp [List.find?, hb, ha, hg]
      | false =>
          have hhead : (if (a.id == itemId) = true then g a else a) = a := by
            rw [hb]
            simp
          rw [List.map_cons, hhead]
          have hfind : ∀ l : List ItemRow,
              List.find? (fun i => i.id == itemId) (a :: l) =
                List.find? (fun i => i.id == itemId) l := by
            intro l
            apply List.find?_cons_of_neg
            simp [hb]
          rw [hfind, hfind, ih]

theorem emb_filter_cons (es : List EmbRow) (i : Nat) (ids : List Nat) (h : i ∉ ids) :
    (es.filter (fun e => (i :: ids).contains e.chunk_id)).length =
      (es.filter (fun e => e.chunk_id == i)).length +
        (es.filter (fun e => ids.contains e.chunk_id)).length := by
  induction es with
  | nil => simp
  | cons e rest ih =>
      by_cases he : e.chunk_id = i
      · simp_all [List.filter_cons, List.contains_cons]
        try omega
      · by_cases hm : e.chunk_id ∈ ids <;>
        · simp_all [List.filter_cons, List.contains_cons]
          try omega

theorem emb_filter_sum (es : List EmbRow) :
    ∀ ids : List Nat, ids.Nodup →
      (es.filter (fun e => ids.contains e.chunk_id)).length =
        (ids.map (fun i => (es.filter (fun e => e.chunk_id == i)).length)).sum := by
  intro ids
  induction ids with
  | nil => intro h; simp
  | cons i rest ih =>
      intro h
      have hni : i ∉ rest := (List.nodup_cons.mp h).1
      rw [emb_filter_cons es i rest hni]
      have := ih (List.nodup_cons.mp h).2
      simp_all

theorem embedDimsOk_map (db : DB) (d : Nat) (embed : String → List Int)
    (hdim : db.embDimTable = some d) (hembed : ∀ t, (embed t).length = d)
    (recs : List (Nat × String)) :
    embedDimsOk db (recs.map (fun q => (q.1, embed q.2))) = true := by
  unfold embedDimsOk
  rw [List.all_eq_true]
  intro p hp
  rw [List.mem_map] at hp
  obtain ⟨q, hq, rfl⟩ := hp
  simp [hdim, hembed]

/-- Full characterization of the insert path under a dimension-correct
embedding function. -/
theorem insertPath_eq (db : DB) (now : Nat) (embed : String → List Int) (uri : String)
    (title st ctx : Option String) (cs : List ChunkData) (tags : List String)
    (exp : Option Nat) (d : Nat) (hdim : db.embDimTable = some d)
    (hembed : ∀ t, (embed t).length = d) :
    insertPath db now embed uri title st ctx cs tags exp =
      ({ db with
          items := db.items ++ [⟨db.next_item_id, uri, title, st, ctx, exp, now, now⟩],
          chunks := db.chunks ++ mkRows db.next_item_id db.next_chunk_id 0 cs,
          tags := db.tags ++ tags.dedup.map (fun t => ⟨db.next_item_id, t⟩),
          chunk_embeddings := db.chunk_embeddings ++
            (mkRows db.next_item_id db.next_chunk_id 0 cs).map (fun r => ⟨r.id, embed r.text⟩),
          chunks_fts := db.chunks_fts ++
            mkFts db.ftsTable
              (contextOf (db.items ++ [⟨db.next_item_id, uri, title, st, ctx, exp, now, now⟩])
                db.next_item_id)
              (mkRows db.next_item_id db.next_chunk_id 0 cs),
          next_item_id := db.next_item_id + 1,
          next_chunk_id := db.next_chunk_id + cs.length }, none) := by
  simp only [insertPath]
  rw [insertChunksFrom_eq]
  simp [insertTagSet, embedInsertPhase, embedDimsOk, List.all_map, hembed, hdim,
    embedInsertFold_eq, List.map_map, Function.comp]

@[simp] theorem embedReplacePhase_items (db : DB) (pairs : List (Nat × List Int)) :
    (embedReplacePhase db pairs).1.items = db.items := by
  unfold embedReplacePhase; split <;> simp

@[simp] theorem embedReplacePhase_chunks (db : DB) (pairs : List (Nat × List Int)) :
    (embedReplacePhase db pairs).1.chunks = db.chunks := by
  unfold embedReplacePhase; split <;> simp

@[simp] theorem embedReplacePhase_tags (db : DB) (pairs : List (Nat × List Int)) :
    (embedReplacePhase db pairs).1.tags = db.tags := by
  unfold embedReplacePhase; split <;> simp

@[simp] theorem embedReplacePhase_fts (db : DB) (pairs : List (Nat × List Int)) :
    (embedReplacePhase db pairs).1.chunks_fts = db.chunks_fts := by
  unfold embedReplacePhase; split <;> simp

@[simp] theorem embedReplacePhase_settings (db : DB) (pairs : List (Nat × List Int)) :
    (embedReplacePhase db pairs).1.settings = db.settings := by
  unfold embedReplacePhase; split <;> simp

@[simp] theorem embedInsertPhase_chunks (db : DB) (pairs : List (Nat × List Int)) :
    (embedInsertPhase db pairs).1.chunks = db.chunks := by
  unfold embedInsertPhase; split <;> simp [embedInsertFold_eq]

@[simp] theorem embedInsertPhase_items (db : DB) (pairs : List (Nat × List Int)) :
    (embedInsertPhase db pairs).1.items = db.items := by
  unfold embedInsertPhase; split <;> simp [embedInsertFold_eq]

@[simp] theorem embDelete_nil (db : DB) : embDelete db [] = db := by
  simp [embDelete]

@[simp] theorem chunkDeleteIds_nil (db : DB) : chunkDeleteIds db [] = db := by
  unfold chunkDeleteIds
  cases hft : db.ftsTable <;> simp [hft] <;> rw [← hft]

theorem filter_append_parts {α : Type} (p : α → Bool) (l1 l2 : List α)
    (h1 : ∀ a ∈ l1, p a = false) (h2 : ∀ a ∈ l2, p a = true) :
    (l1 ++ l2).filter p = l2 := by
  rw [List.filter_append, List.filter_eq_nil_iff.mpr (by intro a ha; simp [h1 a ha]),
    List.filter_eq_self.mpr h2]
  simp

/-- The key-diff delete set is empty when every incoming key is truthy
and the snapshot keys mirror the incoming keys. -/
theorem toDel_nil_of_truthy (rows : List ChunkRow) (cs : List ChunkData)
    (hmap : rows.map (fun r => r.chunk_key) = cs.map (fun c => c.key))
    (hkeys : ∀ c ∈ cs, truthyKey c.key = true) :
    rows.filter (fun c =>
      truthyKey c.chunk_key && !(optKeyMem (incomingKeys cs) c.chunk_key)) = [] := by
  rw [List.filter_eq_nil_iff]
  intro r hr
  have hkmem : r.chunk_key ∈ cs.map (fun c => c.key) := by
    rw [← hmap]
    exact List.mem_map_of_mem _ hr
  rw [List.mem_map] at hkmem
  obtain ⟨c, hc, hck⟩ := hkmem
  have htr : truthyKey c.key = true := hkeys c hc
  unfold truthyKey at htr
  cases hk : c.key with
  | none => rw [hk] at htr; simp at htr
  | some k =>
      rw [hk] at htr
      simp at htr
      have hkm : optKeyMem (incomingKeys cs) r.chunk_key = true := by
        rw [← hck, hk]
        unfold optKeyMem
        have : k ∈ incomingKeys cs := by
          unfold incomingKeys
          rw [List.mem_filter]
          refine ⟨?_, by simpa using htr⟩
          rw [List.mem_filterMap]
          exact ⟨c, hc, hk⟩
        simpa using this
      simp [hkm]

theorem keyMatch_isSome_of_mem (rows : List ChunkRow) (k : String)
    (hk : k.isEmpty = false) (hex : ∃ r ∈ rows, r.chunk_key = some k) :
    (keyMatch rows (some k)).isSome = true := by
  show (if k.isEmpty = true then none
    else (rows.filter (fun c => c.chunk_key == some k)).getLast?).isSome = true
  rw [hk]
  simp only [Bool.false_eq_true, if_false]
  rw [List.getLast?_isSome]
  intro hnil
  obtain ⟨r, hr, hrk⟩ := hex
  have : r ∈ rows.filter (fun c => c.chunk_key == some k) := by
    rw [List.mem_filter]
    exact ⟨hr, by simp [hrk]⟩
  rw [hnil] at this
  simp at this

/-- Ids of the rows of one item, read off the signature projection. -/
def sigIds (sigs : List (Nat × Nat)) (itemId : Nat) : List Nat :=
  (sigs.filter (fun p => p.2 == itemId)).map (fun p => p.1)

theorem chunksOf_map_id_sig (l : List ChunkRow) (itemId : Nat) :
    (l.filter (fun c => c.item_id == itemId)).map (fun c => c.id) =
      sigIds (l.map chunkSig) itemId := by
  induction l with
  | nil => simp [sigIds]
  | cons c rest ih =>
      by_cases h : c.item_id = itemId <;>
        simp [sigIds, chunkSig, h, List.filter_cons, ih]

theorem sigIds_append (s1 s2 : List (Nat × Nat)) (itemId : Nat) :
    sigIds (s1 ++ s2) itemId = sigIds s1 itemId ++ sigIds s2 itemId := by
  simp [sigIds, List.filter_append]

theorem emb_rows_count (embed : String → List Int) (x : Nat) :
    ∀ rows : List ChunkRow, ((rows.map (fun r => r.id)).Nodup) →
      x ∈ rows.map (fun r => r.id) →
      ((rows.map (fun r => (⟨r.id, embed r.text⟩ : EmbRow))).filter
        (fun e => e.chunk_id == x)).length = 1 := by
  intro rows
  induction rows with
  | nil => intro _ hx; simp at hx
  | cons r rest ih =>
      intro hnod hx
      rw [List.map_cons, List.nodup_cons] at hnod
      by_cases hr : r.id = x
      · have hnot : x ∉ rest.map (fun r => r.id) := by
          rw [← hr]; exact hnod.1
        have hzero : ((rest.map (fun r => (⟨r.id, embed r.text⟩ : EmbRow))).filter
            (fun e => e.chunk_id == x)).length = 0 := by
          rw [List.length_eq_zero]
          rw [List.filter_eq_nil_iff]
          intro e he
          rw [List.mem_map] at he
          obtain ⟨q, hq, rfl⟩ := he
          simp only [beq_eq_false_iff_ne, ne_eq]
          intro hqx
          have hqx2 : q.id = x := by simpa using hqx
          exact hnot (hqx2 ▸ (List.mem_map_of_mem (fun r => r.id) hq))
        simp [List.filter_cons, hr, hzero]
      · rcases (by simpa using hx : x = r.id ∨ ∃ a ∈ rest, a.id = x) with h | ⟨a, ha, hax⟩
        · exact absurd h.symm hr
        · have := ih hnod.2 (List.mem_map.mpr ⟨a, ha, hax⟩)
          simp [List.filter_cons, hr, this]

theorem embCount_zero_of_ge (db : DB) (x : Nat)
    (hwf : ∀ e ∈ db.chunk_embeddings, e.chunk_id < db.next_chunk_id)
    (hx : db.next_chunk_id ≤ x) : embCount db x = 0 := by
  unfold embCount
  rw [List.length_eq_zero, List.filter_eq_nil_iff]
  intro e he
  have := hwf e he
  simp only [beq_iff_eq]
  omega

/-- `session.get(Item, id)`: the item row with the given primary key. -/
def getItemRow (db : DB) (itemId : Nat) : Option ItemRow :=
  db.items.find? (fun i => i.id == itemId)

/-! ### Concrete stores for witnesses and counterexamples -/

/-- An initialized empty store with embedding dimension 1. -/
def db0 : DB :=
  ⟨[], [], [], [], [],
   [⟨"embed_model", "m"⟩, ⟨"embed_dimension", "1"⟩], some 1, true, 0, 0⟩

/-- A constant one-dimensional embedding stub. -/
def embed0 : String → List Int := fun _ => [0]

/-- A store holding one fully indexed item: uri "u", one keyless chunk,
one tag. -/
def dbOne : DB :=
  ⟨[⟨0, "u", some "t", some "note", none, none, 0, 0⟩],
   [⟨0, 0, none, 0, "x", none⟩],
   [⟨0, "old"⟩],
   [⟨0, [0]⟩],
   [⟨0, "x", ""⟩],
   [⟨"embed_model", "m"⟩, ⟨"embed_dimension", "1"⟩], some 1, true, 1, 1⟩

/-- The item row stored in `dbOne`. -/
def itemOne : ItemRow := ⟨0, "u", some "t", some "note", none, none, 0, 0⟩

/-! ### Claims -/

/-- Claim C10: for every source_uri with no matching item, `delete_item`
returns false and leaves every table (item, chunk, tag,
chunk_embeddings, chunks_fts, setting) unchanged. -/
theorem C10_delete_missing_noop (db : DB) (uri : String)
    (h : firstItem db uri = none) : delete_item db uri = (db, false) := by
  unfold delete_item
  rw [h]

/-- Witness for C10 at a concrete store. -/
theorem C10_delete_missing_noop_witness :
    firstItem db0 "nope" = none ∧ delete_item db0 "nope" = (db0, false) :=
  ⟨by decide, C10_delete_missing_noop db0 "nope" (by decide)⟩

/-- Claim C9: in the merge path (existing item, replace unset) the
item's title, source_type, context and expires_at become exactly the
supplied values, `none` included: a field omitted from the record erases
the stored value rather than preserving it. -/
theorem C9_merge_overwrites_metadata (db : DB) (now : Nat) (embed : String → List Int)
    (uri : String) (title st ctx : Option String) (cs : List ChunkData)
    (tags : List String) (exp : Option Nat) (it : ItemRow)
    (hwf : DBWf db) (hfind : firstItem db uri = some it) :
    getItemRow (add_item db now embed uri title st ctx cs tags exp false).1 it.id =
      some { it with title := title, source_type := st, context := ctx,
                     expires_at := exp, updated_at := now } := by
  have hit := (firstItem_mem db uri it hfind).1
  have hred : add_item db now embed uri title st ctx cs tags exp false =
      mergePath db now embed it title st ctx cs tags exp := by
    unfold add_item
    rw [hfind]
  rw [hred]
  unfold getItemRow
  simp only [mergePath, insertTagSet, tagDeleteByItem, embedReplacePhase_items,
    mergeChunksFrom_items, chunkDeleteIds, embDelete, itemUpdate]
  rw [find?_map_ite_id db.items it.id
    (fun i => { i with title := title, source_type := st, context := ctx,
                       expires_at := exp, updated_at := now }) (fun i => rfl)]
  rw [find?_id_of_nodup db.items hwf.itemIdNodup it hit]
  rfl

/-- Witness for C9: merging with all-empty metadata erases the stored
title and source_type of `dbOne`. -/
theorem C9_merge_overwrites_metadata_witness :
    getItemRow (add_item dbOne 5 embed0 "u" none none none [] [] none false).1 0 =
      some ⟨0, "u", none, none, none, none, 0, 5⟩ := by
  have h := C9_merge_overwrites_metadata dbOne 5 embed0 "u" none none none [] [] none
    itemOne (by constructor <;> decide)
    (by decide)
  simpa using h

/-- Claim C8: the merge path wholly replaces the item's tags: every
existing tag row of the item is deleted and the supplied list is
inserted as a set, duplicates collapsed to one row (the tag table's
uniqueness is spec-modelled, `models.py` being absent from the
sources). -/
theorem C8_merge_replaces_tags (db : DB) (now : Nat) (embed : String → List Int)
    (uri : String) (title st ctx : Option String) (cs : List ChunkData)
    (tags : List String) (exp : Option Nat) (it : ItemRow)
    (hfind : firstItem db uri = some it) :
    tagsOf (add_item db now embed uri title st ctx cs tags exp false).1 it.id =
      tags.dedup.map (fun t => ⟨it.id, t⟩) := by
  have hred : add_item db now embed uri title st ctx cs tags exp false =
      mergePath db now embed it title st ctx cs tags exp := by
    unfold add_item
    rw [hfind]
  rw [hred]
  unfold tagsOf
  simp only [mergePath, insertTagSet, tagDeleteByItem, embedReplacePhase_tags,
    mergeChunksFrom_tags, chunkDeleteIds, embDelete, itemUpdate]
  apply filter_append_parts
  · intro t ht
    rw [List.mem_filter] at ht
    simpa using ht.2
  · intro t ht
    rw [List.mem_map] at ht
    obtain ⟨s, hs, rfl⟩ := ht
    simp

/-- Witness for C8: duplicates in the supplied tags collapse and the
pre-existing tag "old" disappears. -/
theorem C8_merge_replaces_tags_witness :
    tagsOf (add_item dbOne 5 embed0 "u" none none none [] ["a", "a", "b"] none false).1 0 =
      (["a", "a", "b"].dedup).map (fun t => (⟨0, t⟩ : TagRow)) :=
  C8_merge_replaces_tags dbOne 5 embed0 "u" none none none [] ["a", "a", "b"] none
    itemOne (by decide)

/-- Claim C3: `delete_item` removes the item row together with all its
chunk, tag, embedding and FTS rows — no row of the five tables still
references the removed item — and returns true iff an item with that
source_uri existed (the ORM cascade over chunks and tags is
spec-modelled from invariant I5, `models.py` being absent). -/
theorem C3_delete_item_cascades (db : DB) (uri : String) (it : ItemRow)
    (hwf : DBWf db) (hfts : db.ftsTable = true) (hfind : firstItem db uri = some it) :
    (delete_item db uri).2 = true ∧
    (∀ i ∈ (delete_item db uri).1.items, i.source_uri ≠ uri) ∧
    (∀ c ∈ (delete_item db uri).1.chunks, c.item_id ≠ it.id) ∧
    (∀ t ∈ (delete_item db uri).1.tags, t.item_id ≠ it.id) ∧
    (∀ e ∈ (delete_item db uri).1.chunk_embeddings,
      e.chunk_id ∉ (chunksOf db it.id).map (fun c => c.id)) ∧
    (∀ f ∈ (delete_item db uri).1.chunks_fts,
      f.rowid ∉ (chunksOf db it.id).map (fun c => c.id)) ∧
    (∀ (db2 : DB) (u2 : String), (delete_item db2 u2).2 = (firstItem db2 u2).isSome) := by
  obtain ⟨hit, hituri⟩ := firstItem_mem db uri it hfind
  have hred : delete_item db uri =
      ({ db with
          items := db.items.filter (fun i => !(i.id == it.id)),
          chunks := db.chunks.filter (fun c => !(c.item_id == it.id)),
          tags := db.tags.filter (fun t => !(t.item_id == it.id)),
          chunk_embeddings := db.chunk_embeddings.filter
            (fun e => !(((chunksOf db it.id).map (fun c => c.id)).contains e.chunk_id)),
          chunks_fts := db.chunks_fts.filter
            (fun f => !(((chunksOf db it.id).map (fun c => c.id)).contains f.rowid)) },
        true) := by
    unfold delete_item
    rw [hfind]
    simp only [embDelete, chunkDeleteByItem, tagDeleteByItem, chunksOf, hfts, if_true]
  refine ⟨by rw [hred], ?_, ?_, ?_, ?_, ?_, ?_⟩
  · intro i hi huri2
    rw [hred] at hi
    simp only [List.mem_filter] at hi
    have heq : i = it := List.inj_on_of_nodup_map hwf.uriNodup hi.1 hit
      (by rw [huri2, hituri])
    rw [heq] at hi
    simp at hi
  · intro c hc
    rw [hred] at hc
    simp only [List.mem_filter] at hc
    simpa using hc.2
  · intro t ht
    rw [hred] at ht
    simp only [List.mem_filter] at ht
    simpa using ht.2
  · intro e he
    rw [hred] at he
    simp only [List.mem_filter] at he
    simpa using he.2
  · intro f hf
    rw [hred] at hf
    simp only [List.mem_filter] at hf
    simpa using hf.2
  · intro db2 u2
    unfold delete_item
    cases h : firstItem db2 u2 <;> simp

/-- Witness for C3 at a concrete store. -/
theorem C3_delete_item_cascades_witness :
    ((delete_item dbOne "u").2 = true ∧
     (∀ i ∈ (delete_item dbOne "u").1.items, i.source_uri ≠ "u") ∧
     (∀ c ∈ (delete_item dbOne "u").1.chunks, c.item_id ≠ 0) ∧
     (∀ t ∈ (delete_item dbOne "u").1.tags, t.item_id ≠ 0) ∧
     (∀ e ∈ (delete_item dbOne "u").1.chunk_embeddings,
       e.chunk_id ∉ (chunksOf dbOne 0).map (fun c => c.id)) ∧
     (∀ f ∈ (delete_item dbOne "u").1.chunks_fts,
       f.rowid ∉ (chunksOf dbOne 0).map (fun c => c.id)) ∧
     (∀ (db2 : DB) (u2 : String), (delete_item db2 u2).2 = (firstItem db2 u2).isSome)) :=
  C3_delete_item_cascades dbOne "u" itemOne
    (by constructor <;> decide)
    (by decide) (by decide)

/-- Claim C6 counterexample: the tool facade performs no validation.
`add` with an empty source_uri runs the ingestion (the store changes)
and reports status "added"; `search` with limit 0 invokes the retriever
and returns its rows instead of an error value. -/
theorem C6_counterexample :
    (Mcp.add db0 1 embed0 "" "t" "x" "note" none none).2.2.status = "added" ∧
    (Mcp.add db0 1 embed0 "" "t" "x" "note" none none).1.items ≠ db0.items ∧
    Mcp.search (fun _ _ _ _ _ => [⟨"u", none, none, "hit", 7, []⟩]) "q" 0 none none true =
      [⟨"u", none, none, "hit", 7, []⟩] := by
  refine ⟨by decide, by decide, ?_⟩
  rfl

/-- Claim C6 amended: the facade performs no input validation of its
own: `add` forwards any source_uri — the empty string included — to the
ingestion pipeline and reports status "added", and `search` forwards
every limit (zero, negative and above 1000 included) unchanged to the
retriever. -/
theorem C6_amended_no_validation (db : DB) (now : Nat) (embed : String → List Int)
    (d : Nat) (uri title text st : String) (tags : Option (List String))
    (ctx : Option String) (hdim : db.embDimTable = some d)
    (hembed : ∀ t, (embed t).length = d) (hfind : firstItem db uri = none) :
    (Mcp.add db now embed uri title text st tags ctx).2.2 = ⟨"added", uri, title⟩ ∧
    (Mcp.add db now embed uri title text st tags ctx).2.1 = none ∧
    (∃ i ∈ (Mcp.add db now embed uri title text st tags ctx).1.items, i.source_uri = uri) ∧
    (∀ (hybrid : String → Int → Option String → Option (List String) → Bool → List SearchRow)
       (q : String) (limit : Int) (st2 : Option String) (tg : Option (List String))
       (sem : Bool),
      Mcp.search hybrid q limit st2 tg sem = (hybrid q limit st2 tg sem).map
        (fun r => ⟨r.source_uri, r.title, r.source_type, r.chunk_text, r.score, r.tags⟩)) := by
  have hins : add_item db now embed uri (some title) (some st) ctx
      [⟨text, none, none⟩] (tags.getD []) none false =
      insertPath db now embed uri (some title) (some st) ctx [⟨text, none, none⟩]
        (tags.getD []) none := by
    unfold add_item
    rw [hfind]
  refine ⟨rfl, ?_, ?_, fun _ _ _ _ _ _ => rfl⟩
  · show (add_item db now embed uri (some title) (some st) ctx
      [⟨text, none, none⟩] (tags.getD []) none false).2 = none
    rw [hins, insertPath_eq db now embed uri (some title) (some st) ctx _ _ none d hdim hembed]
  · show ∃ i ∈ (add_item db now embed uri (some title) (some st) ctx
      [⟨text, none, none⟩] (tags.getD []) none false).1.items, i.source_uri = uri
    rw [hins, insertPath_eq db now embed uri (some title) (some st) ctx _ _ none d hdim hembed]
    exact ⟨⟨db.next_item_id, uri, some title, some st, ctx, none, now, now⟩,
      by simp, rfl⟩

/-- The insert path always commits its chunk rows, whatever the
embedding phase does. -/
theorem insertPath_chunks (db : DB) (now : Nat) (embed : String → List Int)
    (uri : String) (title st ctx : Option String) (cs : List ChunkData)
    (tags : List String) (exp : Option Nat) :
    (insertPath db now embed uri title st ctx cs tags exp).1.chunks =
      db.chunks ++ mkRows db.next_item_id db.next_chunk_id 0 cs := by
  simp only [insertPath]
  rw [insertChunksFrom_eq]
  simp only [insertTagSet]
  rw [embedInsertPhase_chunks]

/-- Claim C5 counterexample: an empty-text chunk is NOT skipped:
ingesting `[{"text": ""}]` creates a chunk row, an FTS row and an
embedding row for it. -/
theorem C5_counterexample :
    ((add_item db0 1 embed0 "u" none none none [⟨"", none, none⟩] [] none false).1.chunks.map
        (fun c => c.text) = [""]) ∧
    ((add_item db0 1 embed0 "u" none none none [⟨"", none, none⟩] [] none false).1.chunks_fts.map
        (fun f => (f.rowid, f.text)) = [(0, "")]) ∧
    ((add_item db0 1 embed0 "u" none none none [⟨"", none, none⟩] [] none
        false).1.chunk_embeddings = [⟨0, [0]⟩]) ∧
    ((add_item db0 1 embed0 "u" none none none [⟨"", none, none⟩] [] none false).2 = none) := by
  decide

/-- Claim C5 amended: `add_item` does not validate chunk text: the
insert path stores one chunk row per incoming chunk — empty text
included — each with its embedding row; nothing is skipped. -/
theorem C5_amended_empty_text_kept (db : DB) (now : Nat) (embed : String → List Int)
    (uri : String) (title st ctx : Option String) (cs : List ChunkData)
    (tags : List String) (exp : Option Nat) (d : Nat)
    (hwf : DBWf db) (hdim : db.embDimTable = some d)
    (hembed : ∀ t, (embed t).length = d) (hfind : firstItem db uri = none) :
    ((chunksOf (add_item db now embed uri title st ctx cs tags exp false).1
        db.next_item_id).map (fun c => c.text) = cs.map (fun c => c.text)) ∧
    ((add_item db now embed uri title st ctx cs tags exp false).1.chunk_embeddings.length =
      db.chunk_embeddings.length + cs.length) ∧
    ((add_item db now embed uri title st ctx cs tags exp false).2 = none) := by
  have hred : add_item db now embed uri title st ctx cs tags exp false =
      insertPath db now embed uri title st ctx cs tags exp := by
    unfold add_item
    rw [hfind]
  rw [hred, insertPath_eq db now embed uri title st ctx cs tags exp d hdim hembed]
  refine ⟨?_, ?_, rfl⟩
  · show ((db.chunks ++ mkRows db.next_item_id db.next_chunk_id 0 cs).filter
        (fun c => c.item_id == db.next_item_id)).map (fun c => c.text) =
      cs.map (fun c => c.text)
    rw [filter_append_parts _ _ _
      (fun c hc => by
        have := hwf.chunkItemLt c hc
        simp only [beq_eq_false_iff_ne, ne_eq]
        omega)
      (fun r hr => by
        have := mkRows_item_id db.next_item_id cs db.next_chunk_id 0 r hr
        simp [this])]
    exact mkRows_map_text db.next_item_id cs db.next_chunk_id 0
  · simp [mkRows_length]

/-- Witness for the amended C5: a record mixing an empty-text chunk with
a normal one stores both. -/
theorem C5_amended_empty_text_kept_witness :
    ((chunksOf (add_item db0 1 embed0 "u" none none none
        [⟨"", none, none⟩, ⟨"y", none, none⟩] [] none false).1 0).map (fun c => c.text) =
      [⟨"", none, none⟩, ⟨"y", none, none⟩].map (fun c => ChunkData.text c)) ∧
    ((add_item db0 1 embed0 "u" none none none
        [⟨"", none, none⟩, ⟨"y", none, none⟩] [] none false).1.chunk_embeddings.length =
      db0.chunk_embeddings.length + 2) ∧
    ((add_item db0 1 embed0 "u" none none none
        [⟨"", none, none⟩, ⟨"y", none, none⟩] [] none false).2 = none) :=
  C5_amended_empty_text_kept db0 1 embed0 "u" none none none
    [⟨"", none, none⟩, ⟨"y", none, none⟩] [] none 1
    (by constructor <;> decide)
    (by decide) (fun _ => rfl) (by decide)

/-- A store bootstrapped with persisted dimension 768. -/
def db768 : DB :=
  ⟨[], [], [], [], [],
   [⟨"embed_model", "m"⟩, ⟨"embed_dimension", "768"⟩], some 768, true, 0, 0⟩

/-- Claim C4 counterexample: with the persisted dimension 768 and the
provider now reporting 1024, bootstrap succeeds unchanged (no
ConfigError), and a subsequent add commits its chunk row before the
embedding insert fails — storage IS mutated. -/
theorem C4_counterexample :
    (init_db db768 (some 1024) "m" = Except.ok db768) ∧
    ((add_item db768 1 (fun _ => [0, 0]) "u" none none none
        [⟨"x", none, none⟩] [] none false).2 = some UpsertError.embedDimMismatch) ∧
    ((add_item db768 1 (fun _ => [0, 0]) "u" none none none
        [⟨"x", none, none⟩] [] none false).1.chunks ≠ db768.chunks) :=
  ⟨rfl, by decide, by decide⟩

/-- Claim C4 amended: bootstrap performs no dimension check: when the
persisted setting exists, `init_db` never consults the provider (its
result is the same for every reported dimension) and always succeeds;
and every add commits its relational chunk rows regardless of the
embedding dimension — a mismatch surfaces only afterwards, as an
embedding-phase error, with the rows already stored. -/
theorem C4_amended_no_dimension_check (db : DB) (p q : Option Nat) (model : String)
    (v : String) (dim : Nat) (hset : lookupSetting db "embed_dimension" = some v)
    (hv : parseNat v = some dim) :
    (init_db db p model = init_db db q model ∧ (init_db db p model).isOk = true) ∧
    (∀ (now : Nat) (embed : String → List Int) (uri : String)
       (title st ctx : Option String) (cs : List ChunkData) (tags : List String)
       (exp : Option Nat),
      firstItem db uri = none →
      (add_item db now embed uri title st ctx cs tags exp false).1.chunks =
        db.chunks ++ mkRows db.next_item_id db.next_chunk_id 0 cs) := by
  constructor
  · constructor
    · simp only [init_db, hset, hv]
    · simp only [init_db, hset, hv]
      rfl
  · intro now embed uri title st ctx cs tags exp hfind
    have hred : add_item db now embed uri title st ctx cs tags exp false =
        insertPath db now embed uri title st ctx cs tags exp := by
      unfold add_item
      rw [hfind]
    rw [hred]
    exact insertPath_chunks db now embed uri title st ctx cs tags exp

/-- Witness for the amended C4: two very different reported dimensions
yield the same successful bootstrap, and an add with a mismatched
embedding still stores its chunk row. -/
theorem C4_amended_no_dimension_check_witness :
    ((init_db db768 (some 1024) "m" = init_db db768 (some 55) "m" ∧
      (init_db db768 (some 1024) "m").isOk = true) ∧
     (∀ (now : Nat) (embed : String → List Int) (uri : String)
        (title st ctx : Option String) (cs : List ChunkData) (tags : List String)
        (exp : Option Nat),
       firstItem db768 uri = none →
       (add_item db768 now embed uri title st ctx cs tags exp false).1.chunks =
         db768.chunks ++ mkRows db768.next_item_id db768.next_chunk_id 0 cs)) :=
  C4_amended_no_dimension_check db768 (some 1024) (some 55) "m" "768" 768
    (by decide) (by decide)

/-- Witness for the amended C6 at the problematic inputs: empty uri and
limit 1001. -/
theorem C6_amended_no_validation_witness :
    ((Mcp.add db0 1 embed0 "" "t" "x" "note" none none).2.2 =
        (⟨"added", "", "t"⟩ : AddResponse) ∧
     (Mcp.add db0 1 embed0 "" "t" "x" "note" none none).2.1 = none ∧
     (∃ i ∈ (Mcp.add db0 1 embed0 "" "t" "x" "note" none none).1.items,
        i.source_uri = "") ∧
     (∀ (hybrid : String → Int → Option String → Option (List String) → Bool → List SearchRow)
        (q : String) (limit : Int) (st2 : Option String) (tg : Option (List String))
        (sem : Bool),
       Mcp.search hybrid q limit st2 tg sem = (hybrid q limit st2 tg sem).map
         (fun r => ⟨r.source_uri, r.title, r.source_type, r.chunk_text, r.score, r.tags⟩))) :=
  C6_amended_no_validation db0 1 embed0 1 "" "t" "x" "note" none none
    (by decide) (fun _ => rfl) (by decide)

theorem mem_sigIds {sigs : List (Nat × Nat)} {itemId x : Nat} :
    x ∈ sigIds sigs itemId ↔ ∃ p ∈ sigs, p.2 = itemId ∧ p.1 = x := by
  unfold sigIds
  constructor
  · intro hx
    rw [List.mem_map] at hx
    obtain ⟨p, hp, rfl⟩ := hx
    rw [List.mem_filter] at hp
    exact ⟨p, hp.1, by simpa using hp.2, rfl⟩
  · rintro ⟨p, hp, h2, rfl⟩
    rw [List.mem_map]
    exact ⟨p, List.mem_filter.mpr ⟨hp, by simp [h2]⟩, rfl⟩

/-- A store holding one item with three chunks: null key, key "keep",
key "drop". -/
def dbThree : DB :=
  ⟨[⟨0, "u", none, none, none, none, 0, 0⟩],
   [⟨0, 0, none, 0, "a", none⟩, ⟨1, 0, some "keep", 1, "b", none⟩,
    ⟨2, 0, some "drop", 2, "c", none⟩],
   [],
   [⟨0, [0]⟩, ⟨1, [0]⟩, ⟨2, [0]⟩],
   [⟨0, "a", ""⟩, ⟨1, "b", ""⟩, ⟨2, "c", ""⟩],
   [⟨"embed_model", "m"⟩, ⟨"embed_dimension", "1"⟩], some 1, true, 1, 3⟩

/-- Claim C2 counterexample: a pre-existing chunk with a null key
survives a merge with an empty incoming chunk list — it is NOT deleted
as the claim asserts. -/
theorem C2_counterexample :
    ((add_item dbOne 3 embed0 "u" none none none [] [] none false).1.chunks =
      [⟨0, 0, none, 0, "x", none⟩]) ∧
    ((add_item dbOne 3 embed0 "u" none none none [] [] none false).2 = none) := by
  decide

/-- Claim C2 amended: in the merge path a pre-existing chunk survives
exactly unless its key is a truthy (non-null, nonempty) string missing
from the incoming key set: null-key chunks are never deleted, and a
truthy-keyed chunk is preserved iff its key occurs among the incoming
keys. -/
theorem C2_amended_merge_survival (db : DB) (now : Nat) (embed : String → List Int)
    (uri : String) (title st ctx : Option String) (cs : List ChunkData)
    (tags : List String) (exp : Option Nat) (it : ItemRow)
    (hwf : DBWf db) (hfind : firstItem db uri = some it) :
    ∀ c ∈ chunksOf db it.id,
      (((chunksOf (add_item db now embed uri title st ctx cs tags exp false).1 it.id).map
          (fun r => r.id)).contains c.id) =
        (!(truthyKey c.chunk_key) || optKeyMem (incomingKeys cs) c.chunk_key) := by
  have hred : add_item db now embed uri title st ctx cs tags exp false =
      mergePath db now embed it title st ctx cs tags exp := by
    unfold add_item
    rw [hfind]
  rw [hred]
  intro c hc
  have hcdb : c ∈ db.chunks := (List.mem_filter.mp hc).1
  have hcitem : (c.item_id == it.id) = true := (List.mem_filter.mp hc).2
  set A := itemUpdate db it.id title st ctx exp now with hA
  set snap := chunksOf A it.id with hsnap
  set toDel := snap.filter
    (fun c2 => truthyKey c2.chunk_key && !(optKeyMem (incomingKeys cs) c2.chunk_key)) with htd
  set delIds := toDel.map (fun c2 => c2.id) with hdel
  set db3 := chunkDeleteIds (embDelete A delIds) delIds with hdb3
  have hsnap_eq : snap = chunksOf db it.id := by
    rw [hsnap, hA]
    unfold chunksOf itemUpdate
    rfl
  have hchunks : (mergePath db now embed it title st ctx cs tags exp).1.chunks =
      (mergeChunksFrom it.id snap 0 cs db3).1.chunks := by
    simp only [mergePath, insertTagSet, tagDeleteByItem, embedReplacePhase_chunks,
      ← hA, ← hsnap, ← htd, ← hdel, ← hdb3]
  have hdb3chunks : db3.chunks = db.chunks.filter (fun r => !(delIds.contains r.id)) := by
    rw [hdb3, hA]
    unfold chunkDeleteIds embDelete itemUpdate
    rfl
  have hdb3next : db3.next_chunk_id = db.next_chunk_id := by
    rw [hdb3, hA]
    unfold chunkDeleteIds embDelete itemUpdate
    rfl
  have hgoal_chunks : chunksOf (mergePath db now embed it title st ctx cs tags exp).1 it.id =
      (mergeChunksFrom it.id snap 0 cs db3).1.chunks.filter
        (fun r => r.item_id == it.id) := by
    unfold chunksOf
    rw [hchunks]
  rw [hgoal_chunks, chunksOf_map_id_sig]
  obtain ⟨ext, hext, hge⟩ := mergeChunksFrom_sig_ext it.id snap cs 0 db3
  rw [hext, sigIds_append]
  have hrhs : (!(truthyKey c.chunk_key) || optKeyMem (incomingKeys cs) c.chunk_key) =
      !(truthyKey c.chunk_key && !(optKeyMem (incomingKeys cs) c.chunk_key)) := by
    cases truthyKey c.chunk_key <;> cases optKeyMem (incomingKeys cs) c.chunk_key <;> rfl
  rw [hrhs]
  cases hP : (truthyKey c.chunk_key && !(optKeyMem (incomingKeys cs) c.chunk_key)) with
  | true =>
      have hctd : c ∈ toDel := by
        rw [htd, hsnap_eq]
        exact List.mem_filter.mpr ⟨hc, hP⟩
      have hcdel : c.id ∈ delIds := by
        rw [hdel]
        exact List.mem_map_of_mem _ hctd
      have hnotmem : c.id ∉ sigIds (db3.chunks.map chunkSig) it.id ++ sigIds ext it.id := by
        intro hmem
        rcases List.mem_append.mp hmem with hmem | hmem
        · obtain ⟨p, hp, _hp2, hp1⟩ := mem_sigIds.mp hmem
          rw [List.mem_map] at hp
          obtain ⟨r, hr, rfl⟩ := hp
          rw [hdb3chunks, List.mem_filter] at hr
          have hfalse : (delIds.contains r.id) = false := by simpa using hr.2
          rw [show r.id = c.id from hp1] at hfalse
          have htrue : delIds.contains c.id = true := by simpa using hcdel
          exact absurd (htrue.symm.trans hfalse) (by decide)
        · obtain ⟨p, hp, _hp2, hp1⟩ := mem_sigIds.mp hmem
          have hbig := hge p hp
          rw [hdb3next] at hbig
          have hclt := hwf.chunkIdLt c hcdb
          omega
      simp only [Bool.not_true]
      simpa using hnotmem
  | false =>
      have hcnotdel : c.id ∉ delIds := by
        intro hmem
        rw [hdel, List.mem_map] at hmem
        obtain ⟨c2, hc2, hc2id⟩ := hmem
        have hc2db : c2 ∈ db.chunks := by
          rw [htd, hsnap_eq] at hc2
          exact (List.mem_filter.mp ((List.mem_filter.mp hc2).1)).1
        have : c2 = c := List.inj_on_of_nodup_map hwf.chunkIdNodup hc2db hcdb hc2id
        rw [htd, hsnap_eq] at hc2
        have hfilt := (List.mem_filter.mp hc2).2
        rw [this, hP] at hfilt
        simp at hfilt
      have hcdb3 : c ∈ db3.chunks := by
        rw [hdb3chunks]
        refine List.mem_filter.mpr ⟨hcdb, ?_⟩
        simpa using hcnotdel
      have hmem : c.id ∈ sigIds (db3.chunks.map chunkSig) it.id := by
        rw [mem_sigIds]
        exact ⟨chunkSig c, List.mem_map_of_mem _ hcdb3, by simpa using hcitem, rfl⟩
      simp only [Bool.not_false]
      have : c.id ∈ sigIds (db3.chunks.map chunkSig) it.id ++ sigIds ext it.id :=
        List.mem_append_left _ hmem
      simpa using this

/-- Witness for the amended C2 at the stored null-key chunk: it survives
the merge. -/
theorem C2_amended_merge_survival_witness :
    (((chunksOf (add_item dbThree 7 embed0 "u" none none none
          [⟨"new", some "keep", none⟩] [] none false).1 0).map
        (fun r => r.id)).contains 0) =
      (!(truthyKey (none : Option String)) ||
        optKeyMem (incomingKeys [⟨"new", some "keep", none⟩]) (none : Option String)) :=
  C2_amended_merge_survival dbThree 7 embed0 "u" none none none
    [⟨"new", some "keep", none⟩] [] none ⟨0, "u", none, none, none, none, 0, 0⟩
    (by constructor <;> decide) (by decide)
    ⟨0, 0, none, 0, "a", none⟩ (by decide)

theorem filter_item_append (db : DB) (hwf : DBWf db) (cs : List ChunkData) :
    (db.chunks ++ mkRows db.next_item_id db.next_chunk_id 0 cs).filter
      (fun c => c.item_id == db.next_item_id) =
      mkRows db.next_item_id db.next_chunk_id 0 cs := by
  apply filter_append_parts
  · intro c hc
    have := hwf.chunkItemLt c hc
    simp only [beq_eq_false_iff_ne, ne_eq]
    omega
  · intro r hr
    simp [mkRows_item_id db.next_item_id cs db.next_chunk_id 0 r hr]

theorem add_item_merge_of_found (db : DB) (now : Nat) (embed : String → List Int)
    (uri : String) (title st ctx : Option String) (cs : List ChunkData)
    (tags : List String) (exp : Option Nat) (it : ItemRow)
    (h : firstItem db uri = some it) :
    add_item db now embed uri title st ctx cs tags exp false =
      mergePath db now embed it title st ctx cs tags exp := by
  unfold add_item
  rw [h]

theorem add_item_insert_of_missing (db : DB) (now : Nat) (embed : String → List Int)
    (uri : String) (title st ctx : Option String) (cs : List ChunkData)
    (tags : List String) (exp : Option Nat) (replace : Bool)
    (h : firstItem db uri = none) :
    add_item db now embed uri title st ctx cs tags exp replace =
      insertPath db now embed uri title st ctx cs tags exp := by
  unfold add_item
  rw [h]

theorem mergePath_items (db : DB) (now : Nat) (embed : String → List Int) (it : ItemRow)
    (title st ctx : Option String) (cs : List ChunkData) (tags : List String)
    (exp : Option Nat) :
    (mergePath db now embed it title st ctx cs tags exp).1.items =
      db.items.map (fun i => if i.id == it.id then
        { i with title := title, source_type := st, context := ctx,
                 expires_at := exp, updated_at := now } else i) := by
  simp only [mergePath, insertTagSet, tagDeleteByItem, embedReplacePhase_items,
    mergeChunksFrom_items, chunkDeleteIds, embDelete, itemUpdate]

theorem mergePath_tags (db : DB) (now : Nat) (embed : String → List Int) (it : ItemRow)
    (title st ctx : Option String) (cs : List ChunkData) (tags : List String)
    (exp : Option Nat) :
    (mergePath db now embed it title st ctx cs tags exp).1.tags =
      (db.tags.filter (fun t => !(t.item_id == it.id))) ++
        tags.dedup.map (fun t => ⟨it.id, t⟩) := by
  simp only [mergePath, insertTagSet, tagDeleteByItem, embedReplacePhase_tags,
    mergeChunksFrom_tags, chunkDeleteIds, embDelete, itemUpdate]

theorem embedReplacePhase_err_none (db : DB) (pairs : List (Nat × List Int))
    (h : embedDimsOk db pairs = true) : (embedReplacePhase db pairs).2 = none := by
  unfold embedReplacePhase
  rw [if_pos h]

theorem mergePath_err (db : DB) (now : Nat) (embed : String → List Int) (it : ItemRow)
    (title st ctx : Option String) (cs : List ChunkData) (tags : List String)
    (exp : Option Nat) (d : Nat) (hdim : db.embDimTable = some d)
    (hembed : ∀ t, (embed t).length = d) :
    (mergePath db now embed it title st ctx cs tags exp).2 = none := by
  simp only [mergePath]
  apply embedReplacePhase_err_none
  apply embedDimsOk_map _ d embed _ hembed
  simp only [insertTagSet, tagDeleteByItem, mergeChunksFrom_embDimTable,
    chunkDeleteIds, embDelete, itemUpdate]
  exact hdim

theorem mergePath_keyless_singleton_chunks (db1 : DB) (now2 : Nat)
    (embed : String → List Int) (it : ItemRow) (title st ctx : Option String)
    (text : String) (tags : List String) (exp : Option Nat)
    (hkeys : ∀ r ∈ chunksOf db1 it.id, truthyKey r.chunk_key = false) :
    (mergePath db1 now2 embed it title st ctx [⟨text, none, none⟩] tags exp).1.chunks =
      db1.chunks ++ [⟨db1.next_chunk_id, it.id, none, 0, text, none⟩] := by
  simp only [mergePath]
  have htd : (chunksOf (itemUpdate db1 it.id title st ctx exp now2) it.id).filter
      (fun c => truthyKey c.chunk_key &&
        !(optKeyMem (incomingKeys [⟨text, none, none⟩]) c.chunk_key)) = [] := by
    rw [List.filter_eq_nil_iff]
    intro r hr
    have hfalse : truthyKey r.chunk_key = false := hkeys r hr
    simp [hfalse]
  rw [htd]
  simp only [List.map_nil, embDelete_nil, chunkDeleteIds_nil]
  simp only [embedReplacePhase_chunks, insertTagSet, tagDeleteByItem]
  simp only [mergeChunksFrom, keyMatch, chunkInsert]
  simp [itemUpdate]

/-- Claim C1 amended: two identical facade `add` calls leave exactly one
item row and the same tag set as a single call, and raise no error, but
the second call inserts a second chunk row with the same text: the
keyless chunk stored by the first call is not matched by the merge and
is kept alongside a fresh duplicate. -/
theorem C1_amended_second_add_duplicates_chunk (db : DB) (now1 now2 : Nat)
    (embed : String → List Int) (uri title text st : String)
    (tags : Option (List String)) (ctx : Option String) (d : Nat)
    (hwf : DBWf db) (hdim : db.embDimTable = some d)
    (hembed : ∀ t, (embed t).length = d) (hfind : firstItem db uri = none) :
    (((Mcp.add (Mcp.add db now1 embed uri title text st tags ctx).1 now2 embed uri title
        text st tags ctx).1.items.filter (fun i => i.source_uri == uri)).length = 1) ∧
    ((chunksOf (Mcp.add (Mcp.add db now1 embed uri title text st tags ctx).1 now2 embed uri
        title text st tags ctx).1 db.next_item_id).map (fun c => c.text) = [text, text]) ∧
    ((chunksOf (Mcp.add db now1 embed uri title text st tags ctx).1 db.next_item_id).map
        (fun c => c.text) = [text]) ∧
    ((tagsOf (Mcp.add (Mcp.add db now1 embed uri title text st tags ctx).1 now2 embed uri
        title text st tags ctx).1 db.next_item_id).map (fun t => t.tag) =
      (tags.getD []).dedup) ∧
    ((tagsOf (Mcp.add db now1 embed uri title text st tags ctx).1 db.next_item_id).map
        (fun t => t.tag) = (tags.getD []).dedup) ∧
    ((Mcp.add db now1 embed uri title text st tags ctx).2.1 = none) ∧
    ((Mcp.add (Mcp.add db now1 embed uri title text st tags ctx).1 now2 embed uri title text
        st tags ctx).2.1 = none) := by
  have hadd1 : add_item db now1 embed uri (some title) (some st) ctx
      [⟨text, none, none⟩] (tags.getD []) none false =
      insertPath db now1 embed uri (some title) (some st) ctx
        [⟨text, none, none⟩] (tags.getD []) none := by
    unfold add_item
    rw [hfind]
  have hins := insertPath_eq db now1 embed uri (some title) (some st) ctx
    [⟨text, none, none⟩] (tags.getD []) none d hdim hembed
  have hfst1 : (Mcp.add db now1 embed uri title text st tags ctx).1 =
      (insertPath db now1 embed uri (some title) (some st) ctx
        [⟨text, none, none⟩] (tags.getD []) none).1 := by
    simp only [Mcp.add]
    rw [hadd1]
  have hrows : mkRows db.next_item_id db.next_chunk_id 0 [⟨text, none, none⟩] =
      [⟨db.next_chunk_id, db.next_item_id, none, 0, text, none⟩] := by
    simp [mkRows]
  have hfind' : db.items.find? (fun i => i.source_uri == uri) = none := hfind
  -- the store after the first call, seen through its projections
  have hA1chunks : (add_item db now1 embed uri (some title) (some st) ctx
      [⟨text, none, none⟩] (tags.getD []) none false).1.chunks =
      db.chunks ++ [⟨db.next_chunk_id, db.next_item_id, none, 0, text, none⟩] := by
    rw [hadd1, hins]
    dsimp only
    rw [hrows]
  have hA1items : (add_item db now1 embed uri (some title) (some st) ctx
      [⟨text, none, none⟩] (tags.getD []) none false).1.items =
      db.items ++ [⟨db.next_item_id, uri, some title, some st, ctx, none, now1, now1⟩] := by
    rw [hadd1, hins]
  have hA1tags : (add_item db now1 embed uri (some title) (some st) ctx
      [⟨text, none, none⟩] (tags.getD []) none false).1.tags =
      db.tags ++ (tags.getD []).dedup.map (fun t => ⟨db.next_item_id, t⟩) := by
    rw [hadd1, hins]
  have hA1dim : (add_item db now1 embed uri (some title) (some st) ctx
      [⟨text, none, none⟩] (tags.getD []) none false).1.embDimTable = some d := by
    rw [hadd1, hins]
    exact hdim
  have hA1next : (add_item db now1 embed uri (some title) (some st) ctx
      [⟨text, none, none⟩] (tags.getD []) none false).1.next_chunk_id =
      db.next_chunk_id + 1 := by
    rw [hadd1, hins]
    rfl
  have hA1err : (add_item db now1 embed uri (some title) (some st) ctx
      [⟨text, none, none⟩] (tags.getD []) none false).2 = none := by
    rw [hadd1, hins]
  have hchunksOf1 : chunksOf (add_item db now1 embed uri (some title) (some st) ctx
      [⟨text, none, none⟩] (tags.getD []) none false).1 db.next_item_id =
      [⟨db.next_chunk_id, db.next_item_id, none, 0, text, none⟩] := by
    unfold chunksOf
    rw [hA1chunks]
    rw [← hrows, filter_item_append db hwf [⟨text, none, none⟩], hrows]
  have hfind2 : firstItem (add_item db now1 embed uri (some title) (some st) ctx
      [⟨text, none, none⟩] (tags.getD []) none false).1 uri =
      some ⟨db.next_item_id, uri, some title, some st, ctx, none, now1, now1⟩ := by
    unfold firstItem
    rw [hA1items]
    rw [firstItem_append_of_none db uri hfind]
    simp
  have hadd2 : add_item (add_item db now1 embed uri (some title) (some st) ctx
      [⟨text, none, none⟩] (tags.getD []) none false).1 now2 embed uri (some title)
      (some st) ctx [⟨text, none, none⟩] (tags.getD []) none false =
      mergePath (add_item db now1 embed uri (some title) (some st) ctx
        [⟨text, none, none⟩] (tags.getD []) none false).1 now2 embed
        ⟨db.next_item_id, uri, some title, some st, ctx, none, now1, now1⟩
        (some title) (some st) ctx [⟨text, none, none⟩] (tags.getD []) none :=
    add_item_merge_of_found _ now2 embed uri (some title) (some st) ctx
      [⟨text, none, none⟩] (tags.getD []) none _ hfind2
  refine ⟨?_, ?_, ?_, ?_, ?_, ?_, ?_⟩
  · -- one item row with this uri after the second call
    simp only [Mcp.add]
    rw [hadd2, mergePath_items]
    dsimp only
    rw [hA1items, List.map_append]
    have hmapold : db.items.map (fun i => if i.id == db.next_item_id then
        { i with
            title := some title,
            source_type := some st,
            context := ctx,
            expires_at := none,
            updated_at := now2 } else i) = db.items := by
      have : ∀ i ∈ db.items, (if i.id == db.next_item_id then
          ({ i with
              title := some title,
              source_type := some st,
              context := ctx,
              expires_at := none,
              updated_at := now2 } : ItemRow) else i) = i := by
        intro i hi
        have := hwf.itemIdLt i hi
        have hne : (i.id == db.next_item_id) = false := by
          simp only [beq_eq_false_iff_ne, ne_eq]
          omega
        rw [hne]
        simp
      calc db.items.map _ = db.items.map id := List.map_congr_left this
        _ = db.items := List.map_id db.items
    rw [hmapold]
    rw [List.filter_append]
    have hfilterold : db.items.filter (fun i => i.source_uri == uri) = [] := by
      rw [List.filter_eq_nil_iff]
      intro i hi
      have := List.find?_eq_none.mp hfind' i hi
      simpa using this
    rw [hfilterold]
    simp
  · -- two chunk rows, same text, after the second call
    simp only [Mcp.add]
    unfold chunksOf
    rw [hadd2]
    rw [mergePath_keyless_singleton_chunks _ now2 embed _ (some title) (some st) ctx
      text (tags.getD []) none (by
        intro r hr
        have hr2 := hr
        rw [show chunksOf (add_item db now1 embed uri (some title) (some st) ctx
            [⟨text, none, none⟩] (tags.getD []) none false).1
            (ItemRow.id ⟨db.next_item_id, uri, some title, some st, ctx, none, now1, now1⟩) =
            [⟨db.next_chunk_id, db.next_item_id, none, 0, text, none⟩] from hchunksOf1] at hr2
        have hr3 : r = ⟨db.next_chunk_id, db.next_item_id, none, 0, text, none⟩ :=
          List.mem_singleton.mp hr2
        rw [hr3]
        rfl)]
    dsimp only
    rw [hA1chunks, hA1next, List.append_assoc]
    rw [filter_append_parts _ db.chunks _
      (fun c hc => by
        have := hwf.chunkItemLt c hc
        simp only [beq_eq_false_iff_ne, ne_eq]
        omega)
      (fun r hr => by
        rcases (by simpa using hr :
            r = (⟨db.next_chunk_id, db.next_item_id, none, 0, text, none⟩ : ChunkRow) ∨
            r = (⟨db.next_chunk_id + 1, db.next_item_id, none, 0, text, none⟩ : ChunkRow))
          with h | h <;> rw [h] <;> simp)]
    simp
  · -- one chunk row after the first call
    simp only [Mcp.add]
    rw [hchunksOf1]
    simp
  · -- tags after the second call
    simp only [Mcp.add]
    unfold tagsOf
    rw [hadd2, mergePath_tags]
    dsimp only
    rw [filter_append_parts _ _ _
      (fun t ht => by
        rw [List.mem_filter] at ht
        simpa using ht.2)
      (fun t ht => by
        rw [List.mem_map] at ht
        obtain ⟨s, hs, rfl⟩ := ht
        simp)]
    rw [List.map_map]
    exact (List.map_congr_left (fun a ha => rfl)).trans (List.map_id _)
  · -- tags after the first call
    simp only [Mcp.add]
    unfold tagsOf
    rw [hA1tags]
    rw [filter_append_parts _ _ _
      (fun t ht => by
        have := hwf.tagItemLt t ht
        simp only [beq_eq_false_iff_ne, ne_eq]
        omega)
      (fun t ht => by
        rw [List.mem_map] at ht
        obtain ⟨s, hs, rfl⟩ := ht
        simp)]
    rw [List.map_map]
    exact (List.map_congr_left (fun a ha => rfl)).trans (List.map_id _)
  · -- first call raises no error
    simp only [Mcp.add]
    exact hA1err
  · -- second call raises no error
    simp only [Mcp.add]
    rw [hadd2]
    exact mergePath_err _ now2 embed _ (some title) (some st) ctx _ _ none d hA1dim hembed

/-- Claim C1 counterexample: two identical facade `add` calls followed
by `get` do NOT yield the same single item as one call: after the second
call the item carries two chunks instead of one — a duplicate chunk row. -/
theorem C1_counterexample :
    ((get_item (Mcp.add (Mcp.add db0 1 embed0 "u" "t" "x" "note" none none).1 2 embed0
        "u" "t" "x" "note" none none).1 "u").map (fun v => v.chunks.length) = some 2) ∧
    ((get_item (Mcp.add db0 1 embed0 "u" "t" "x" "note" none none).1 "u").map
        (fun v => v.chunks.length) = some 1) := by
  decide

/-- Witness for the amended C1 at a concrete store. -/
theorem C1_amended_second_add_duplicates_chunk_witness :
    (((Mcp.add (Mcp.add db0 1 embed0 "u" "t" "x" "note" none none).1 2 embed0 "u" "t"
        "x" "note" none none).1.items.filter (fun i => i.source_uri == "u")).length = 1) ∧
    ((chunksOf (Mcp.add (Mcp.add db0 1 embed0 "u" "t" "x" "note" none none).1 2 embed0 "u"
        "t" "x" "note" none none).1 db0.next_item_id).map (fun c => c.text) = ["x", "x"]) ∧
    ((chunksOf (Mcp.add db0 1 embed0 "u" "t" "x" "note" none none).1 db0.next_item_id).map
        (fun c => c.text) = ["x"]) ∧
    ((tagsOf (Mcp.add (Mcp.add db0 1 embed0 "u" "t" "x" "note" none none).1 2 embed0 "u"
        "t" "x" "note" none none).1 db0.next_item_id).map (fun t => t.tag) =
      ((none : Option (List String)).getD []).dedup) ∧
    ((tagsOf (Mcp.add db0 1 embed0 "u" "t" "x" "note" none none).1 db0.next_item_id).map
        (fun t => t.tag) = ((none : Option (List String)).getD []).dedup) ∧
    ((Mcp.add db0 1 embed0 "u" "t" "x" "note" none none).2.1 = none) ∧
    ((Mcp.add (Mcp.add db0 1 embed0 "u" "t" "x" "note" none none).1 2 embed0 "u" "t" "x"
        "note" none none).2.1 = none) :=
  C1_amended_second_add_duplicates_chunk db0 1 2 embed0 "u" "t" "x" "note" none none 1
    (by constructor <;> decide) (by decide) (fun _ => rfl) (by decide)

theorem sum_map_one {α : Type} (l : List α) : (l.map (fun _ => (1 : Nat))).sum = l.length := by
  induction l with
  | nil => rfl
  | cons a t ih => simp [ih, Nat.add_comm]

/-- A merge whose incoming record carries exactly the keys already
stored (all truthy): no chunk row is created or destroyed, no error is
raised, and every chunk id that had exactly one embedding row still has
exactly one. -/
theorem mergePath_stable (db1 : DB) (now2 : Nat) (embed : String → List Int)
    (it : ItemRow) (title st ctx : Option String) (cs : List ChunkData)
    (tags : List String) (exp : Option Nat) (d : Nat)
    (hdim1 : db1.embDimTable = some d) (hembed : ∀ t, (embed t).length = d)
    (hmap : (chunksOf db1 it.id).map (fun r => r.chunk_key) = cs.map (fun c => c.key))
    (hkeys : ∀ c ∈ cs, truthyKey c.key = true) :
    ((mergePath db1 now2 embed it title st ctx cs tags exp).1.chunks.map chunkSig =
      db1.chunks.map chunkSig) ∧
    ((mergePath db1 now2 embed it title st ctx cs tags exp).2 = none) ∧
    (∀ x, embCount db1 x = 1 →
      embCount (mergePath db1 now2 embed it title st ctx cs tags exp).1 x = 1) := by
  have hsnap_eq : chunksOf (itemUpdate db1 it.id title st ctx exp now2) it.id =
      chunksOf db1 it.id := by
    unfold chunksOf itemUpdate
    rfl
  have htd : (chunksOf (itemUpdate db1 it.id title st ctx exp now2) it.id).filter
      (fun c => truthyKey c.chunk_key && !(optKeyMem (incomingKeys cs) c.chunk_key)) = [] := by
    rw [hsnap_eq]
    exact toDel_nil_of_truthy _ cs hmap hkeys
  have hallmatch : ∀ c ∈ cs,
      (keyMatch (chunksOf (itemUpdate db1 it.id title st ctx exp now2) it.id) c.key).isSome = true := by
    intro c hc
    have htr := hkeys c hc
    unfold truthyKey at htr
    cases hk : c.key with
    | none => rw [hk] at htr; simp at htr
    | some k =>
        rw [hk] at htr
        have hne : k.isEmpty = false := by
          simpa using htr
        apply keyMatch_isSome_of_mem _ k hne
        have hkmem : some k ∈ (chunksOf db1 it.id).map (fun r => r.chunk_key) := by
          rw [hmap, List.mem_map]
          exact ⟨c, hc, hk⟩
        rw [List.mem_map] at hkmem
        obtain ⟨r, hr, hrk⟩ := hkmem
        rw [hsnap_eq]
        exact ⟨r, hr, hrk⟩
  have hok : ∀ db6 : DB, db6.embDimTable = some d →
      ∀ recs : List (Nat × String),
        embedDimsOk db6 (recs.map (fun q => (q.1, embed q.2))) = true := by
    intro db6 h6 recs
    exact embedDimsOk_map db6 d embed h6 hembed recs
  refine ⟨?_, ?_, ?_⟩
  · simp only [mergePath]
    rw [htd]
    simp only [List.map_nil, embDelete_nil, chunkDeleteIds_nil]
    simp only [embedReplacePhase_chunks, insertTagSet, tagDeleteByItem]
    rw [mergeChunksFrom_allMatch_sig it.id _ cs 0 _ hallmatch]
    rfl
  · exact mergePath_err db1 now2 embed it title st ctx cs tags exp d hdim1 hembed
  · intro x hx
    simp only [mergePath]
    rw [htd]
    simp only [List.map_nil, embDelete_nil, chunkDeleteIds_nil]
    unfold embedReplacePhase
    rw [if_pos (hok _ (by
      simp only [insertTagSet, tagDeleteByItem, mergeChunksFrom_embDimTable, itemUpdate]
      exact hdim1) _)]
    dsimp only
    rw [embedReplaceFold_count]
    have hemb6 : (insertTagSet (tagDeleteByItem
        (mergeChunksFrom it.id (chunksOf (itemUpdate db1 it.id title st ctx exp now2) it.id)
          0 cs (itemUpdate db1 it.id title st ctx exp now2)).1 it.id) it.id
        tags).chunk_embeddings = db1.chunk_embeddings := by
      simp only [insertTagSet, tagDeleteByItem, mergeChunksFrom_emb]
      unfold itemUpdate
      rfl
    split
    · rfl
    · unfold embCount
      rw [hemb6]
      unfold embCount at hx
      exact hx

/-- Claim C7 amended: for a record whose chunks all carry truthy
(non-null, NONEMPTY) keys, re-ingesting the identical record with
replace unset raises no error, yields exactly the same chunk id list for
the item, and leaves the item's chunk_embeddings row count equal to its
chunk count. -/
theorem C7_amended_stable_reingest (db : DB) (now1 now2 : Nat) (embed : String → List Int)
    (uri : String) (title st ctx : Option String) (cs : List ChunkData)
    (tags : List String) (exp : Option Nat) (d : Nat)
    (hwf : DBWf db) (hdim : db.embDimTable = some d)
    (hembed : ∀ t, (embed t).length = d) (hfind : firstItem db uri = none)
    (hkeys : ∀ c ∈ cs, truthyKey c.key = true) :
    ((add_item db now1 embed uri title st ctx cs tags exp false).2 = none) ∧
    ((add_item (add_item db now1 embed uri title st ctx cs tags exp false).1 now2 embed uri
        title st ctx cs tags exp false).2 = none) ∧
    ((chunksOf (add_item (add_item db now1 embed uri title st ctx cs tags exp false).1 now2
        embed uri title st ctx cs tags exp false).1 db.next_item_id).map (fun c => c.id) =
      (chunksOf (add_item db now1 embed uri title st ctx cs tags exp false).1
        db.next_item_id).map (fun c => c.id)) ∧
    (((add_item (add_item db now1 embed uri title st ctx cs tags exp false).1 now2 embed uri
        title st ctx cs tags exp false).1.chunk_embeddings.filter (fun e =>
          (((chunksOf (add_item (add_item db now1 embed uri title st ctx cs tags exp
              false).1 now2 embed uri title st ctx cs tags exp false).1
              db.next_item_id).map (fun c => c.id)).contains e.chunk_id))).length =
      (chunksOf (add_item (add_item db now1 embed uri title st ctx cs tags exp false).1 now2
        embed uri title st ctx cs tags exp false).1 db.next_item_id).length) := by
  have hred1 := add_item_insert_of_missing db now1 embed uri title st ctx cs tags exp
    false hfind
  have hins := insertPath_eq db now1 embed uri title st ctx cs tags exp d hdim hembed
  have hA1chunks : (add_item db now1 embed uri title st ctx cs tags exp false).1.chunks =
      db.chunks ++ mkRows db.next_item_id db.next_chunk_id 0 cs := by
    rw [hred1, hins]
  have hA1items : (add_item db now1 embed uri title st ctx cs tags exp false).1.items =
      db.items ++ [⟨db.next_item_id, uri, title, st, ctx, exp, now1, now1⟩] := by
    rw [hred1, hins]
  have hA1dim : (add_item db now1 embed uri title st ctx cs tags exp
      false).1.embDimTable = some d := by
    rw [hred1, hins]
    exact hdim
  have hA1emb : (add_item db now1 embed uri title st ctx cs tags exp
      false).1.chunk_embeddings = db.chunk_embeddings ++
      (mkRows db.next_item_id db.next_chunk_id 0 cs).map
        (fun r => ⟨r.id, embed r.text⟩) := by
    rw [hred1, hins]
  have hA1err : (add_item db now1 embed uri title st ctx cs tags exp false).2 = none := by
    rw [hred1, hins]
  have hchunksOf1 : chunksOf (add_item db now1 embed uri title st ctx cs tags exp
      false).1 db.next_item_id = mkRows db.next_item_id db.next_chunk_id 0 cs := by
    unfold chunksOf
    rw [hA1chunks]
    exact filter_item_append db hwf cs
  have hfind2 : firstItem (add_item db now1 embed uri title st ctx cs tags exp false).1
      uri = some ⟨db.next_item_id, uri, title, st, ctx, exp, now1, now1⟩ := by
    unfold firstItem
    rw [hA1items]
    rw [firstItem_append_of_none db uri hfind]
    simp
  have hred2 := add_item_merge_of_found
    (add_item db now1 embed uri title st ctx cs tags exp false).1 now2 embed uri
    title st ctx cs tags exp ⟨db.next_item_id, uri, title, st, ctx, exp, now1, now1⟩ hfind2
  have hmap : (chunksOf (add_item db now1 embed uri title st ctx cs tags exp false).1
      (ItemRow.id ⟨db.next_item_id, uri, title, st, ctx, exp, now1, now1⟩)).map
        (fun r => r.chunk_key) = cs.map (fun c => c.key) := by
    rw [show chunksOf (add_item db now1 embed uri title st ctx cs tags exp false).1
        (ItemRow.id ⟨db.next_item_id, uri, title, st, ctx, exp, now1, now1⟩) =
        mkRows db.next_item_id db.next_chunk_id 0 cs from hchunksOf1]
    exact mkRows_map_key db.next_item_id cs db.next_chunk_id 0
  obtain ⟨hsig, herr2, hcount⟩ := mergePath_stable
    (add_item db now1 embed uri title st ctx cs tags exp false).1 now2 embed
    ⟨db.next_item_id, uri, title, st, ctx, exp, now1, now1⟩ title st ctx cs tags exp d
    hA1dim hembed hmap hkeys
  have h3 : (chunksOf (add_item (add_item db now1 embed uri title st ctx cs tags exp
      false).1 now2 embed uri title st ctx cs tags exp false).1 db.next_item_id).map
        (fun c => c.id) =
      (chunksOf (add_item db now1 embed uri title st ctx cs tags exp false).1
        db.next_item_id).map (fun c => c.id) := by
    rw [hred2]
    unfold chunksOf
    rw [chunksOf_map_id_sig, chunksOf_map_id_sig, hsig]
  refine ⟨hA1err, ?_, h3, ?_⟩
  · rw [hred2]
    exact herr2
  · rw [h3, hchunksOf1]
    have hnodup : ((mkRows db.next_item_id db.next_chunk_id 0 cs).map
        (fun c => c.id)).Nodup := mkRows_id_nodup db.next_item_id cs db.next_chunk_id 0
    rw [emb_filter_sum _ _ hnodup]
    have hone : ∀ i ∈ (mkRows db.next_item_id db.next_chunk_id 0 cs).map (fun c => c.id),
        ((add_item (add_item db now1 embed uri title st ctx cs tags exp false).1 now2
          embed uri title st ctx cs tags exp false).1.chunk_embeddings.filter
            (fun e => e.chunk_id == i)).length = 1 := by
      intro i hi
      have hA1count : embCount (add_item db now1 embed uri title st ctx cs tags exp
          false).1 i = 1 := by
        unfold embCount
        rw [hA1emb, List.filter_append, List.length_append]
        have hz : (db.chunk_embeddings.filter (fun e => e.chunk_id == i)).length = 0 := by
          have hge : db.next_chunk_id ≤ i := by
            rw [mkRows_map_id] at hi
            exact (List.mem_range'_1.mp hi).1
          exact embCount_zero_of_ge db i hwf.embChunkLt hge
        have ho : (((mkRows db.next_item_id db.next_chunk_id 0 cs).map
            (fun r => (⟨r.id, embed r.text⟩ : EmbRow))).filter
              (fun e => e.chunk_id == i)).length = 1 :=
          emb_rows_count embed i (mkRows db.next_item_id db.next_chunk_id 0 cs)
            (mkRows_id_nodup db.next_item_id cs db.next_chunk_id 0) hi
        rw [hz, ho]
      have := hcount i hA1count
      rw [hred2]
      exact this
    rw [List.map_congr_left hone, sum_map_one, List.length_map]
    have hids := h3
    rw [hchunksOf1] at hids
    have hlenB : (chunksOf (add_item (add_item db now1 embed uri title st ctx cs tags exp
        false).1 now2 embed uri title st ctx cs tags exp false).1 db.next_item_id).length =
        (mkRows db.next_item_id db.next_chunk_id 0 cs).length := by
      have hcon := congrArg List.length hids
      simpa using hcon
    exact hlenB.symm

/-- Claim C7 counterexample: a chunk key that is the empty string is
non-null, yet re-ingesting the identical record does NOT preserve the
chunk id set: Python truthiness treats "" as no key, so a duplicate
chunk is inserted ({0} becomes {0, 1}). -/
theorem C7_counterexample :
    ((chunksOf (add_item (add_item db0 1 embed0 "u" none none none
        [⟨"a", some "", none⟩] [] none false).1 2 embed0 "u" none none none
        [⟨"a", some "", none⟩] [] none false).1 0).map (fun c => c.id) = [0, 1]) ∧
    ((chunksOf (add_item db0 1 embed0 "u" none none none [⟨"a", some "", none⟩] [] none
        false).1 0).map (fun c => c.id) = [0]) := by
  decide

/-- Witness for the amended C7: two keyed chunks re-ingested twice keep
ids and embedding counts. -/
theorem C7_amended_stable_reingest_witness :
    ((add_item db0 1 embed0 "u" none none none
        [⟨"a", some "k1", none⟩, ⟨"b", some "k2", none⟩] [] none false).2 = none) ∧
    ((add_item (add_item db0 1 embed0 "u" none none none
        [⟨"a", some "k1", none⟩, ⟨"b", some "k2", none⟩] [] none false).1 2 embed0 "u"
        none none none [⟨"a", some "k1", none⟩, ⟨"b", some "k2", none⟩] [] none
        false).2 = none) ∧
    ((chunksOf (add_item (add_item db0 1 embed0 "u" none none none
        [⟨"a", some "k1", none⟩, ⟨"b", some "k2", none⟩] [] none false).1 2 embed0 "u"
        none none none [⟨"a", some "k1", none⟩, ⟨"b", some "k2", none⟩] [] none
        false).1 db0.next_item_id).map (fun c => c.id) =
      (chunksOf (add_item db0 1 embed0 "u" none none none
        [⟨"a", some "k1", none⟩, ⟨"b", some "k2", none⟩] [] none false).1
        db0.next_item_id).map (fun c => c.id)) ∧
    (((add_item (add_item db0 1 embed0 "u" none none none
        [⟨"a", some "k1", none⟩, ⟨"b", some "k2", none⟩] [] none false).1 2 embed0 "u"
        none none none [⟨"a", some "k1", none⟩, ⟨"b", some "k2", none⟩] [] none
        false).1.chunk_embeddings.filter (fun e =>
          (((chunksOf (add_item (add_item db0 1 embed0 "u" none none none
              [⟨"a", some "k1", none⟩, ⟨"b", some "k2", none⟩] [] none false).1 2 embed0
              "u" none none none [⟨"a", some "k1", none⟩, ⟨"b", some "k2", none⟩] [] none
              false).1 db0.next_item_id).map (fun c => c.id)).contains
            e.chunk_id))).length =
      (chunksOf (add_item (add_item db0 1 embed0 "u" none none none
        [⟨"a", some "k1", none⟩, ⟨"b", some "k2", none⟩] [] none false).1 2 embed0 "u"
        none none none [⟨"a", some "k1", none⟩, ⟨"b", some "k2", none⟩] [] none
        false).1 db0.next_item_id).length) :=
  C7_amended_stable_reingest db0 1 2 embed0 "u" none none none
    [⟨"a", some "k1", none⟩, ⟨"b", some "k2", none⟩] [] none 1
    (by constructor <;> decide) (by decide) (fun _ => rfl) (by decide) (by decide)

end Uridx
